import Mathlib

/-!
Verification of the GraphNote AI server (src/ai-server/main.py) against its
natural-language specification.

The development shallowly embeds the server's core logic in Lean:

* `JVal` models parsed JSON values (Python's `json` module restricted to the
  integer-numeral fragment: floats, exponent/fraction numerals and the
  non-standard `NaN`/`Infinity` literals are outside the model).
* `jsonLoads` models `json.loads` (strict mode) on that fragment, and `serV`
  models a canonical compact serialization of a JSON value.
* `_extract_json_block`, `clamp_max_nodes`, `_require_server_api_key`, the
  response handling of `_call_vllm`, the inline graph-shape validator and the
  `/generate` handler (including the pydantic field constraints of
  `GenerateRequest`) are translated function by function.

Python strings are modelled as Lean `String`s; `str.strip()` is modelled on
the ASCII whitespace characters.
-/

/-- Model of a parsed JSON value (the result of `json.loads`).  Objects keep
their key/value pairs in textual order; lookup (`jget`) gives later duplicate
keys precedence, matching Python `dict` construction during parsing. -/
inductive JVal where
  | null
  | bool (b : Bool)
  | num (n : Int)
  | str (s : String)
  | arr (xs : List JVal)
  | obj (kvs : List (String × JVal))

/-- Python `dict.get`: later bindings win, absent key gives `none`. -/
def jget (kvs : List (String × JVal)) (k : String) : Option JVal :=
  match kvs with
  | [] => none
  | (k', v) :: rest =>
    match jget rest k with
    | some w => some w
    | none => if k' = k then some v else none

/-- Discriminator used to state that a JSON value is an object. -/
def JVal.isObj : JVal → Bool
  | .obj _ => true
  | _ => false

/-! ### Serialization (a canonical compact `json.dumps`) -/

/-- Hexadecimal digit character (lower case), for `\u` escapes. -/
def hexDigitChar (n : Nat) : Char :=
  Char.ofNat (if n < 10 then 48 + n else 87 + n)

/-- JSON escaping of a single character inside a string literal. -/
def escChar (c : Char) : List Char :=
  if c = '"' then ['\\', '"']
  else if c = '\\' then ['\\', '\\']
  else if c = '\n' then ['\\', 'n']
  else if c = '\t' then ['\\', 't']
  else if c = '\r' then ['\\', 'r']
  else if c = '\x08' then ['\\', 'b']
  else if c = '\x0c' then ['\\', 'f']
  else if c.toNat < 32 then
    ['\\', 'u', '0', '0', hexDigitChar (c.toNat / 16), hexDigitChar (c.toNat % 16)]
  else [c]

/-- JSON escaping of the body of a string literal. -/
def escList : List Char → List Char
  | [] => []
  | c :: cs => escChar c ++ escList cs

/-- Decimal digits of `n`, most significant first (`fuel`-bounded helper). -/
def natDigitsAux : Nat → Nat → List Char
  | 0, _ => []
  | fuel + 1, n =>
    if n = 0 then []
    else natDigitsAux fuel (n / 10) ++ [Char.ofNat (48 + n % 10)]

/-- Decimal numeral of a natural number. -/
def serNat (n : Nat) : List Char :=
  if n = 0 then ['0'] else natDigitsAux n n

/-- Decimal numeral of an integer. -/
def serInt (i : Int) : List Char :=
  if i < 0 then '-' :: serNat i.natAbs else serNat i.toNat

mutual
/-- Canonical compact serialization of a JSON value. -/
def serV : JVal → List Char
  | .null => 'n' :: ['u', 'l', 'l']
  | .bool true => 't' :: ['r', 'u', 'e']
  | .bool false => 'f' :: ['a', 'l', 's', 'e']
  | .num i => serInt i
  | .str s => '"' :: escList s.data ++ ['"']
  | .arr xs => '[' :: serItems xs ++ [']']
  | .obj kvs => '{' :: serMembers kvs ++ ['}']

/-- Comma-separated serialization of array elements. -/
def serItems : List JVal → List Char
  | [] => []
  | [x] => serV x
  | x :: y :: xs => serV x ++ ',' :: serItems (y :: xs)

/-- Comma-separated serialization of object members. -/
def serMembers : List (String × JVal) → List Char
  | [] => []
  | [(k, v)] => '"' :: escList k.data ++ '"' :: ':' :: serV v
  | (k, v) :: m :: kvs =>
    ('"' :: escList k.data ++ '"' :: ':' :: serV v) ++ ',' :: serMembers (m :: kvs)
end

/-! ### Parsing (model of strict-mode `json.loads` on the integer fragment) -/

/-- JSON whitespace (RFC 8259 / Python `json`). -/
def isJsonWs (c : Char) : Bool :=
  c == ' ' || c == '\t' || c == '\n' || c == '\r'

/-- Skip JSON whitespace. -/
def skipWs (cs : List Char) : List Char := cs.dropWhile isJsonWs

/-- Value of a hexadecimal digit character. -/
def hexVal (c : Char) : Option Nat :=
  if 48 ≤ c.toNat ∧ c.toNat ≤ 57 then some (c.toNat - 48)
  else if 97 ≤ c.toNat ∧ c.toNat ≤ 102 then some (c.toNat - 87)
  else if 65 ≤ c.toNat ∧ c.toNat ≤ 70 then some (c.toNat - 55)
  else none

/-- Parse the body of a JSON string literal (after the opening quote),
returning the contents and the input after the closing quote.  Strict mode:
raw control characters are rejected; `\u` escapes for surrogate code points
are outside the model.  Fuel-bounded; each step consumes at least one input
character, so `cs.length` fuel always suffices. -/
def parseStringBodyF : Nat → List Char → Option (List Char × List Char)
  | 0, _ => none
  | fuel + 1, cs =>
    match cs with
    | [] => none
    | c :: rest =>
      if c = '"' then some ([], rest)
      else if c = '\\' then
        match rest with
        | [] => none
        | e :: rest2 =>
          if e = '"' then (parseStringBodyF fuel rest2).map (fun p => ('"' :: p.1, p.2))
          else if e = '\\' then (parseStringBodyF fuel rest2).map (fun p => ('\\' :: p.1, p.2))
          else if e = '/' then (parseStringBodyF fuel rest2).map (fun p => ('/' :: p.1, p.2))
          else if e = 'n' then (parseStringBodyF fuel rest2).map (fun p => ('\n' :: p.1, p.2))
          else if e = 't' then (parseStringBodyF fuel rest2).map (fun p => ('\t' :: p.1, p.2))
          else if e = 'r' then (parseStringBodyF fuel rest2).map (fun p => ('\r' :: p.1, p.2))
          else if e = 'b' then (parseStringBodyF fuel rest2).map (fun p => ('\x08' :: p.1, p.2))
          else if e = 'f' then (parseStringBodyF fuel rest2).map (fun p => ('\x0c' :: p.1, p.2))
          else if e = 'u' then
            match rest2 with
            | a :: b :: c2 :: d :: rest3 =>
              match hexVal a with
              | none => none
              | some ha =>
                match hexVal b with
                | none => none
                | some hb =>
                  match hexVal c2 with
                  | none => none
                  | some hc =>
                    match hexVal d with
                    | none => none
                    | some hd =>
                      if ((ha * 16 + hb) * 16 + hc) * 16 + hd < 55296 then
                        (parseStringBodyF fuel rest3).map
                          (fun p => (Char.ofNat (((ha * 16 + hb) * 16 + hc) * 16 + hd) :: p.1, p.2))
                      else none
            | _ => none
          else none
      else if c.toNat < 32 then none
      else (parseStringBodyF fuel rest).map (fun p => (c :: p.1, p.2))

/-- Parse the body of a JSON string literal (after the opening quote). -/
def parseStringBody (cs : List Char) : Option (List Char × List Char) :=
  parseStringBodyF cs.length cs

/-- Numeric value of a list of decimal digit characters. -/
def digitsToNat (ds : List Char) : Nat :=
  ds.foldl (fun a c => 10 * a + (c.toNat - 48)) 0

/-- Parse an unsigned decimal numeral (leading zeros rejected, as in JSON). -/
def parseNatPart (cs : List Char) : Option (Nat × List Char) :=
  match cs.takeWhile Char.isDigit with
  | [] => none
  | d :: ds =>
    if d = '0' ∧ ds ≠ [] then none
    else some (digitsToNat (d :: ds), cs.dropWhile Char.isDigit)

/-- Parse a JSON integer numeral. -/
def parseNumber (cs : List Char) : Option (Int × List Char) :=
  match cs with
  | [] => none
  | c :: rest =>
    if c = '-' then (parseNatPart rest).map (fun p => (-(p.1 : Int), p.2))
    else (parseNatPart cs).map (fun p => ((p.1 : Int), p.2))

mutual
/-- Parse a JSON value (fuel-bounded recursive descent). -/
def parseValue : Nat → List Char → Option (JVal × List Char)
  | 0, _ => none
  | fuel + 1, cs =>
    match skipWs cs with
    | [] => none
    | c :: rest =>
      if c = '{' then
        match skipWs rest with
        | [] => none
        | c2 :: r2 =>
          if c2 = '}' then some (.obj [], r2)
          else (parseMembers fuel (c2 :: r2)).map (fun p => (.obj p.1, p.2))
      else if c = '[' then
        match skipWs rest with
        | [] => none
        | c2 :: r2 =>
          if c2 = ']' then some (.arr [], r2)
          else (parseItems fuel (c2 :: r2)).map (fun p => (.arr p.1, p.2))
      else if c = '"' then
        (parseStringBody rest).map (fun p => (.str (String.mk p.1), p.2))
      else if c = 'n' then
        match rest with
        | 'u' :: 'l' :: 'l' :: r => some (.null, r)
        | _ => none
      else if c = 't' then
        match rest with
        | 'r' :: 'u' :: 'e' :: r => some (.bool true, r)
        | _ => none
      else if c = 'f' then
        match rest with
        | 'a' :: 'l' :: 's' :: 'e' :: r => some (.bool false, r)
        | _ => none
      else (parseNumber (c :: rest)).map (fun p => (.num p.1, p.2))

/-- Parse the non-empty element list of a JSON array (up to and including the
closing bracket). -/
def parseItems : Nat → List Char → Option (List JVal × List Char)
  | 0, _ => none
  | fuel + 1, cs =>
    match parseValue fuel cs with
    | none => none
    | some (v, r) =>
      match skipWs r with
      | [] => none
      | c :: r2 =>
        if c = ',' then
          match parseItems fuel r2 with
          | none => none
          | some (vs, r3) => some (v :: vs, r3)
        else if c = ']' then some ([v], r2)
        else none

/-- Parse the non-empty member list of a JSON object (up to and including the
closing brace). -/
def parseMembers : Nat → List Char → Option (List (String × JVal) × List Char)
  | 0, _ => none
  | fuel + 1, cs =>
    match skipWs cs with
    | [] => none
    | c :: rest =>
      if c = '"' then
        match parseStringBody rest with
        | none => none
        | some (k, r1) =>
          match skipWs r1 with
          | [] => none
          | c2 :: r2 =>
            if c2 = ':' then
              match parseValue fuel r2 with
              | none => none
              | some (v, r3) =>
                match skipWs r3 with
                | [] => none
                | c3 :: r4 =>
                  if c3 = ',' then
                    match parseMembers fuel r4 with
                    | none => none
                    | some (kvs, r5) => some ((String.mk k, v) :: kvs, r5)
                  else if c3 = '}' then some ([(String.mk k, v)], r4)
                  else none
            else none
      else none
end

/-- Model of `json.loads` on a character list: parse one value surrounded by
optional whitespace; anything left over is an error ("Extra data"). -/
def jsonLoadsL (cs : List Char) : Option JVal :=
  match parseValue (cs.length + 1) cs with
  | some (v, rest) => if skipWs rest = [] then some v else none
  | none => none

/-- Model of `json.loads` on a string. -/
def jsonLoads (s : String) : Option JVal := jsonLoadsL s.data

/-! ### The JSON extractor `_extract_json_block` -/

/-- Whitespace stripped by Python `str.strip()` (ASCII fragment). -/
def isPyWs (c : Char) : Bool :=
  c == ' ' || c == '\t' || c == '\n' || c == '\r' || c == '\x0b' || c == '\x0c'

/-- Drop matching characters from the right end of a list. -/
def rdropWhile (p : Char → Bool) (cs : List Char) : List Char :=
  ((cs.reverse).dropWhile p).reverse

/-- Python `str.strip(chars)`: drop matching characters from both ends. -/
def stripWhile (p : Char → Bool) (cs : List Char) : List Char :=
  rdropWhile p (cs.dropWhile p)

/-- Python `str.strip()` on a character list. -/
def pyStripL (cs : List Char) : List Char := stripWhile isPyWs cs

/-- Python `str.strip()`. -/
def pyStrip (s : String) : String := String.mk (pyStripL s.data)

/-- Fence handling of `_extract_json_block`: strip whitespace; if the result
starts with a triple backtick, strip backticks from both ends and, when the
remainder starts with the tag `json`, drop the tag and strip whitespace
again. -/
def stripFence (cs : List Char) : List Char :=
  let s := pyStripL cs
  if ['`', '`', '`'].isPrefixOf s then
    let t := stripWhile (fun c => c == '`') s
    if ['j', 's', 'o', 'n'].isPrefixOf t then pyStripL (t.drop 4) else t
  else s

/-- Position of the first brace: `stripped.find("\x7b")`, returning the suffix
starting at the first `'{'` (or `none`, i.e. `find` = -1). -/
def afterFirstBrace : List Char → Option (List Char)
  | [] => none
  | c :: rest => if c = '{' then some (c :: rest) else afterFirstBrace rest

/-- The depth-counting loop of `_extract_json_block`'s fallback: `acc` holds
the characters already consumed; on a `'}'` that brings the depth to zero the
candidate span (consumed characters including that brace) is returned. -/
def braceLoop : List Char → Int → List Char → Option (List Char)
  | [], _, _ => none
  | c :: rest, depth, acc =>
    if c = '{' then braceLoop rest (depth + 1) (acc ++ [c])
    else if c = '}' then
      if depth - 1 = 0 then some (acc ++ [c])
      else braceLoop rest (depth - 1) (acc ++ [c])
    else braceLoop rest depth (acc ++ [c])

/-- Failure modes of `_extract_json_block`. -/
inductive ExtractErr where
  | noObject
  | incomplete
  | decodeError
deriving DecidableEq

/-- The exception message raised for each extractor failure.  `decodeError`
is a propagated `json.JSONDecodeError` whose message is produced by the
`json` library (not a fixed string of this program). -/
def ExtractErr.message : ExtractErr → Option String
  | .noObject => some "model output does not contain JSON object"
  | .incomplete => some "unable to extract complete JSON object"
  | .decodeError => none

/-- Model of `_extract_json_block`: strip fences and whitespace, try a direct
parse, and otherwise brace-match the first top-level object span. -/
def _extract_json_block (text : String) : Except ExtractErr String :=
  match jsonLoadsL (stripFence text.data) with
  | some _ => .ok (String.mk (stripFence text.data))
  | none =>
    match afterFirstBrace (stripFence text.data) with
    | none => .error .noObject
    | some tail =>
      match braceLoop tail 0 [] with
      | none => .error .incomplete
      | some candidate =>
        match jsonLoadsL candidate with
        | some _ => .ok (String.mk candidate)
        | none => .error .decodeError

/-! ### Server constants, clamping and auth -/

def DEFAULT_VLLM_MODEL : String := "Qwen/Qwen2.5-14B-Instruct"

def DEFAULT_MAX_NODES : Int := 28

def MAX_MAX_NODES : Int := 80

def MAX_PROMPT_CHARS : Nat := 4000

/-- Model of `clamp_max_nodes`. -/
def clamp_max_nodes (value : Int) : Int :=
  if value ≤ 0 then DEFAULT_MAX_NODES
  else if value > MAX_MAX_NODES then MAX_MAX_NODES
  else value

/-- Process environment as read by the handler (read-only configuration).
`modelServerApiKey` is `os.getenv("MODEL_SERVER_API_KEY", "")` and
`vllmModel` is `os.getenv("VLLM_MODEL")` (`none` when unset). -/
structure Env where
  modelServerApiKey : String
  vllmModel : Option String

/-- Typed failures surfaced by the `/generate` endpoint. -/
inductive VllmError where
  | remoteError (detail : String)
  | invalidJson
  | missingContent
  | emptyContent
  | parseGraphFailed (e : ExtractErr)
  | invalidGraph (detail : String)
deriving DecidableEq

/-- Endpoint-level failures, including the pydantic request-validation
rejection that FastAPI produces before the handler body runs. -/
inductive EndpointError where
  | validationError
  | unauthorized
  | promptRequired
  | promptTooLong
  | upstream (e : VllmError)
deriving DecidableEq

/-- HTTP status code attached to each endpoint failure. -/
def EndpointError.statusCode : EndpointError → Nat
  | .validationError => 422
  | .unauthorized => 401
  | .promptRequired => 400
  | .promptTooLong => 400
  | .upstream _ => 502

/-- Detail string of each endpoint failure, where the program fixes one
(`validationError` details are generated by FastAPI, and some upstream
details embed library-generated text). -/
def VllmError.detail : VllmError → Option String
  | .remoteError d => some d
  | .invalidJson => some "invalid JSON from vLLM"
  | .missingContent => some "missing completion content from vLLM"
  | .emptyContent => some "empty completion content from vLLM"
  | .parseGraphFailed e =>
    match e.message with
    | some m => some ("failed to parse graph JSON: " ++ m)
    | none => none
  | .invalidGraph d => some d

/-- Detail string of each endpoint failure (when fixed by the program). -/
def EndpointError.detail : EndpointError → Option String
  | .validationError => none
  | .unauthorized => some "unauthorized"
  | .promptRequired => some "prompt is required"
  | .promptTooLong => some "prompt is too long"
  | .upstream e => e.detail

/-- Model of `_require_server_api_key`: compare the `Authorization` header
against `Bearer <secret>` when a (whitespace-stripped) non-empty secret is
configured; `none` means the check passes. -/
def _require_server_api_key (env : Env) (authorization : Option String) :
    Option EndpointError :=
  if pyStrip env.modelServerApiKey = "" then none
  else if authorization = some ("Bearer " ++ pyStrip env.modelServerApiKey) then none
  else some .unauthorized

/-- Model of the `model` resolution in `_call_vllm`:
`(model or os.getenv("VLLM_MODEL", DEFAULT_VLLM_MODEL)).strip()`. -/
def resolveTargetModel (override : Option String) (envModel : Option String) :
    String :=
  pyStrip
    (match override with
     | some m => if m = "" then envModel.getD DEFAULT_VLLM_MODEL else m
     | none => envModel.getD DEFAULT_VLLM_MODEL)

/-! ### Remote response handling of `_call_vllm` -/

/-- An HTTP response from the remote completion endpoint. -/
structure HttpResponse where
  status : Nat
  body : String

/-- Truncation of remote error bodies: `detail[:600]`. -/
def truncate600 (s : String) : String :=
  if s.length > 600 then String.mk (s.data.take 600) else s

/-- Lookup on a JSON object value (`payload[key]`); non-objects give the
`TypeError`/`KeyError` outcome `none`. -/
def jkeyOf (v : JVal) (k : String) : Option JVal :=
  match v with
  | .obj kvs => jget kvs k
  | _ => none

/-- Index on a JSON array value (`payload[i]`); out of range or non-array
gives `none`. -/
def jidx (v : JVal) (i : Nat) : Option JVal :=
  match v with
  | .arr xs => xs.get? i
  | _ => none

/-- The `payload["choices"][0]["message"]["content"]` access path; any
`KeyError`/`IndexError`/`TypeError` gives `none`. -/
def getContentPath (payload : JVal) : Option JVal := do
  let choices ← jkeyOf payload "choices"
  let c0 ← jidx choices 0
  let msg ← jkeyOf c0 "message"
  jkeyOf msg "content"

/-- The inline graph-shape validator at the end of `_call_vllm`: the parsed
value must be an object whose `name` is a string and whose `nodes` and
`edges` are arrays; on success the value is returned unchanged. -/
def validateGraph (g : JVal) : Except String JVal :=
  match g with
  | .obj kvs =>
    match jget kvs "name" with
    | some (.str _) =>
      match jget kvs "nodes" with
      | some (.arr _) =>
        match jget kvs "edges" with
        | some (.arr _) => .ok (.obj kvs)
        | _ => .error "graph payload missing array field: edges"
      | _ => .error "graph payload missing array field: nodes"
    | _ => .error "graph payload missing string field: name"
  | _ => .error "graph payload is not an object"

/-- Extraction, decoding and validation of the completion content (the tail
of `_call_vllm` after the content checks). -/
def processContent (content : String) : Except VllmError JVal :=
  match _extract_json_block content with
  | .error e => .error (.parseGraphFailed e)
  | .ok block =>
    match jsonLoads block with
    | none => .error (.parseGraphFailed .decodeError)
    | some graph =>
      match validateGraph graph with
      | .ok g => .ok g
      | .error d => .error (.invalidGraph d)

/-- Response handling of `_call_vllm`, from the received HTTP response to the
validated graph: status check (bodies stripped and truncated to 600
characters), JSON decoding, `choices[0].message.content` access, content
checks, then extraction and validation. -/
def _call_vllm_response (resp : HttpResponse) : Except VllmError JVal :=
  if resp.status ≥ 400 then
    .error (.remoteError ("vLLM error: " ++ truncate600 (pyStrip resp.body)))
  else
    match jsonLoads resp.body with
    | none => .error .invalidJson
    | some payload =>
      match getContentPath payload with
      | none => .error .missingContent
      | some content =>
        match content with
        | .str s => if pyStrip s = "" then .error .emptyContent else processContent s
        | _ => .error .emptyContent

/-! ### The `/generate` endpoint -/

/-- The request body as received on the wire (before pydantic validation). -/
structure RawGenerateRequest where
  prompt : String
  maxNodes : Option Int
  model : Option String

/-- A validated `GenerateRequest`. -/
structure GenerateRequest where
  prompt : String
  maxNodes : Int
  model : Option String

/-- Pydantic validation of `GenerateRequest`: `prompt` has `min_length=1`;
`maxNodes` defaults to 28 and must lie in `[1, 80]` when present. -/
def pydanticValidate (r : RawGenerateRequest) : Option GenerateRequest :=
  if r.prompt.length < 1 then none
  else
    match r.maxNodes with
    | none => some ⟨r.prompt, DEFAULT_MAX_NODES, r.model⟩
    | some v =>
      if 1 ≤ v ∧ v ≤ MAX_MAX_NODES then some ⟨r.prompt, v, r.model⟩ else none

/-- Model of a `/generate` call: FastAPI request validation, the auth check,
prompt trimming and validation, then the remote call whose response is
`remote`.  The result does not depend on `remote` on any pre-call failure
path. -/
def generate_graph (env : Env) (authorization : Option String)
    (raw : RawGenerateRequest) (remote : HttpResponse) :
    Except EndpointError JVal :=
  match pydanticValidate raw with
  | none => .error .validationError
  | some req =>
    match _require_server_api_key env authorization with
    | some e => .error e
    | none =>
      if pyStrip req.prompt = "" then .error .promptRequired
      else if (pyStrip req.prompt).length > MAX_PROMPT_CHARS then .error .promptTooLong
      else (_call_vllm_response remote).mapError .upstream

/-! ### Auxiliary measures and predicates used by the theorems -/

mutual
/-- Fuel measure of a JSON value: enough parser fuel to reparse its
serialization. -/
def jsizeV : JVal → Nat
  | .null => 1
  | .bool _ => 1
  | .num _ => 1
  | .str _ => 1
  | .arr [] => 1
  | .arr (x :: xs) => 1 + jsizeI (x :: xs)
  | .obj [] => 1
  | .obj (kv :: kvs) => 1 + jsizeM (kv :: kvs)

/-- Fuel measure of a non-empty array element list. -/
def jsizeI : List JVal → Nat
  | [] => 0
  | [x] => 1 + jsizeV x
  | x :: y :: xs => 1 + jsizeV x + jsizeI (y :: xs)

/-- Fuel measure of a non-empty object member list. -/
def jsizeM : List (String × JVal) → Nat
  | [] => 0
  | [(_, v)] => 1 + jsizeV v
  | (_, v) :: m :: kvs => 1 + jsizeV v + jsizeM (m :: kvs)
end

/-- Does a string contain no brace characters?  Serializations of
brace-free values are exactly the ones the extractor's depth-counting
fallback spans correctly. -/
def braceFreeStr (cs : List Char) : Bool :=
  cs.all (fun c => !(c == '{') && !(c == '}'))

mutual
/-- All string literals (keys and values) of a JSON value are brace-free. -/
def braceFreeV : JVal → Bool
  | .null => true
  | .bool _ => true
  | .num _ => true
  | .str s => braceFreeStr s.data
  | .arr xs => braceFreeI xs
  | .obj kvs => braceFreeM kvs

/-- Brace-freedom of an array element list. -/
def braceFreeI : List JVal → Bool
  | [] => true
  | x :: xs => braceFreeV x && braceFreeI xs

/-- Brace-freedom of an object member list. -/
def braceFreeM : List (String × JVal) → Bool
  | [] => true
  | (k, v) :: kvs => braceFreeStr k.data && braceFreeV v && braceFreeM kvs
end

/-- Depth contribution of one character in the brace scan. -/
def netc (c : Char) : Int :=
  if c = '{' then 1 else if c = '}' then -1 else 0

/-- Net brace depth of a character list. -/
def net : List Char → Int
  | [] => 0
  | c :: cs => netc c + net cs

/-- Minimum over all prefixes of the net brace depth (always ≤ 0). -/
def minPre : List Char → Int
  | [] => 0
  | c :: cs =>
    if netc c + minPre cs < 0 then netc c + minPre cs else 0

/-! ### Basic list and character lemmas -/

theorem skipWs_cons (c : Char) (l : List Char) (h : isJsonWs c = false) :
    skipWs (c :: l) = c :: l := by
  simp [skipWs, List.dropWhile, h]

theorem takeWhile_append_eq (p : Char → Bool) (X Y : List Char)
    (hX : ∀ c ∈ X, p c = true) (hY : ∀ c, Y.head? = some c → p c = false) :
    (X ++ Y).takeWhile p = X := by
  induction X with
  | nil =>
    cases Y with
    | nil => rfl
    | cons b bs => simp [List.takeWhile, hY b rfl]
  | cons a as ih =>
    simp only [List.cons_append, List.takeWhile, hX a (by simp)]
    simp only [List.mem_cons] at hX
    rw [List.append_eq, ih (fun c hc => hX c (Or.inr hc))]

theorem dropWhile_append_eq (p : Char → Bool) (X Y : List Char)
    (hX : ∀ c ∈ X, p c = true) (hY : ∀ c, Y.head? = some c → p c = false) :
    (X ++ Y).dropWhile p = Y := by
  induction X with
  | nil =>
    cases Y with
    | nil => rfl
    | cons b bs => simp [List.dropWhile, hY b rfl]
  | cons a as ih =>
    simp only [List.cons_append, List.dropWhile, hX a (by simp)]
    simp only [List.mem_cons] at hX
    rw [List.append_eq, ih (fun c hc => hX c (Or.inr hc))]

theorem toNat_ofNat_lt (n : Nat) (h : n < 55296) : (Char.ofNat n).toNat = n := by
  simp [Char.ofNat, Nat.isValidChar, h, Char.toNat, Char.ofNatAux, UInt32.toNat,
    UInt32.ofNatCore, BitVec.toNat_ofNatLt]

theorem isDigit_ofNat_digit (d : Nat) (h : d < 10) :
    (Char.ofNat (48 + d)).isDigit = true := by
  interval_cases d <;> rfl

/-! ### Decimal numeral lemmas -/

theorem natDigitsAux_zero (fuel : Nat) : natDigitsAux fuel 0 = [] := by
  cases fuel <;> simp [natDigitsAux]

theorem natDigitsAux_ne_nil (fuel n : Nat) (h1 : 0 < n) (h2 : n ≤ fuel) :
    natDigitsAux fuel n ≠ [] := by
  cases fuel with
  | zero => omega
  | succ f =>
    have hn : ¬ n = 0 := by omega
    simp [natDigitsAux, hn]

theorem natDigitsAux_digits (fuel : Nat) :
    ∀ n, ∀ c ∈ natDigitsAux fuel n, c.isDigit = true := by
  induction fuel with
  | zero => intro n c hc; simp [natDigitsAux] at hc
  | succ f ih =>
    intro n c hc
    by_cases hn : n = 0
    · subst hn; simp [natDigitsAux] at hc
    · simp only [natDigitsAux, if_neg hn, List.mem_append, List.mem_singleton] at hc
      rcases hc with hc | rfl
      · exact ih (n / 10) c hc
      · exact isDigit_ofNat_digit (n % 10) (Nat.mod_lt _ (by omega))

theorem natDigitsAux_head_ne (fuel : Nat) :
    ∀ n, 0 < n → n ≤ fuel → (natDigitsAux fuel n).head? ≠ some '0' := by
  induction fuel with
  | zero => intro n h1 h2; omega
  | succ f ih =>
    intro n h1 h2
    have hn : ¬ n = 0 := by omega
    simp only [natDigitsAux, if_neg hn]
    by_cases hsm : n < 10
    · have : n / 10 = 0 := by omega
      rw [this, natDigitsAux_zero]
      simp only [List.nil_append, List.head?_cons, ne_eq, Option.some.injEq]
      intro he
      have := congrArg Char.toNat he
      rw [toNat_ofNat_lt _ (by omega)] at this
      have h0 : ('0' : Char).toNat = 48 := rfl
      rw [h0] at this
      omega
    · have hpos : 0 < n / 10 := by omega
      have hlt : n / 10 < n := Nat.div_lt_self h1 (by norm_num)
      have hle : n / 10 ≤ f := by omega
      obtain ⟨a, as, he⟩ :=
        List.exists_cons_of_ne_nil (natDigitsAux_ne_nil f (n / 10) hpos hle)
      have hh := ih (n / 10) hpos hle
      rw [he] at hh ⊢
      simpa using hh

theorem foldl_natDigitsAux (fuel : Nat) :
    ∀ n acc, n ≤ fuel →
      (natDigitsAux fuel n).foldl (fun a c => 10 * a + (c.toNat - 48)) acc
        = acc * 10 ^ (natDigitsAux fuel n).length + n := by
  induction fuel with
  | zero =>
    intro n acc h
    have : n = 0 := by omega
    subst this
    simp [natDigitsAux]
  | succ f ih =>
    intro n acc h
    by_cases hn : n = 0
    · subst hn; simp [natDigitsAux]
    · have hlt : n / 10 < n := Nat.div_lt_self (by omega) (by norm_num)
      have hle : n / 10 ≤ f := by omega
      simp only [natDigitsAux, if_neg hn]
      rw [List.foldl_append, ih (n / 10) acc hle]
      simp only [List.foldl, List.length_append, List.length_singleton]
      rw [toNat_ofNat_lt _ (by omega), pow_succ, ← mul_assoc]
      generalize acc * 10 ^ (natDigitsAux f (n / 10)).length = M
      omega

theorem serNat_spec (n : Nat) :
    ∃ d ds, serNat n = d :: ds ∧ (∀ c ∈ serNat n, c.isDigit = true) ∧
      ¬(d = '0' ∧ ds ≠ []) ∧ digitsToNat (serNat n) = n := by
  by_cases hn : n = 0
  · subst hn
    exact ⟨'0', [], rfl, by decide, by simp, rfl⟩
  · have hpos : 0 < n := by omega
    obtain ⟨d, ds, he⟩ := List.exists_cons_of_ne_nil (natDigitsAux_ne_nil n n hpos le_rfl)
    have hser : serNat n = d :: ds := by rw [serNat, if_neg hn, he]
    refine ⟨d, ds, hser, ?_, ?_, ?_⟩
    · intro c hc
      rw [serNat, if_neg hn] at hc
      exact natDigitsAux_digits n n c hc
    · rintro ⟨rfl, -⟩
      have hh := natDigitsAux_head_ne n n hpos le_rfl
      rw [he] at hh
      simp at hh
    · rw [serNat, if_neg hn, digitsToNat, foldl_natDigitsAux n n 0 le_rfl]
      simp

theorem parseNatPart_serNat (n : Nat) (rest : List Char)
    (hrest : ∀ c, rest.head? = some c → c.isDigit = false) :
    parseNatPart (serNat n ++ rest) = some (n, rest) := by
  obtain ⟨d, ds, he, hall, hguard, hval⟩ := serNat_spec n
  simp only [parseNatPart]
  rw [takeWhile_append_eq _ _ _ hall hrest, dropWhile_append_eq _ _ _ hall hrest, he]
  have step :
      (match d :: ds with
        | [] => none
        | d' :: ds' =>
          if d' = '0' ∧ ds' ≠ [] then none else some (digitsToNat (d' :: ds'), rest))
        = if d = '0' ∧ ds ≠ [] then none
          else some (digitsToNat (d :: ds), rest) := rfl
  rw [step, if_neg hguard, ← he, hval]

theorem digit_no_dash (c : Char) (h : c.isDigit = true) : ¬ c = '-' := by
  rintro rfl
  exact absurd h (by decide)

theorem parseNumber_serInt (i : Int) (rest : List Char)
    (hrest : ∀ c, rest.head? = some c → c.isDigit = false) :
    parseNumber (serInt i ++ rest) = some (i, rest) := by
  by_cases hi : i < 0
  · simp only [serInt, if_pos hi, List.cons_append]
    have step : parseNumber ('-' :: (serNat i.natAbs ++ rest))
        = (parseNatPart (serNat i.natAbs ++ rest)).map
            (fun p => (-(p.1 : Int), p.2)) := rfl
    rw [step, parseNatPart_serNat _ _ hrest]
    simp only [Option.map_some']
    have : -((i.natAbs : Nat) : Int) = i := by omega
    rw [this]
  · simp only [serInt, if_neg hi]
    obtain ⟨d, ds, he, hall, -, -⟩ := serNat_spec i.toNat
    have hd : d.isDigit = true := hall d (by rw [he]; simp)
    rw [he, List.cons_append]
    have step : parseNumber (d :: (ds ++ rest))
        = if d = '-' then (parseNatPart (ds ++ rest)).map (fun p => (-(p.1 : Int), p.2))
          else (parseNatPart (d :: (ds ++ rest))).map (fun p => ((p.1 : Int), p.2)) := rfl
    rw [step, if_neg (digit_no_dash d hd)]
    rw [show d :: (ds ++ rest) = serNat i.toNat ++ rest from by rw [he]; rfl]
    rw [parseNatPart_serNat _ _ hrest]
    simp only [Option.map_some']
    have : ((i.toNat : Nat) : Int) = i := by omega
    rw [this]


/-! ### String literal round trip -/

theorem hexVal_hexDigitChar (n : Nat) (h : n < 16) :
    hexVal (hexDigitChar n) = some n := by
  interval_cases n <;> rfl

theorem parseStringBodyF_escList (fuel : Nat) :
    ∀ l rest, l.length < fuel →
      parseStringBodyF fuel (escList l ++ '"' :: rest) = some (l, rest) := by
  induction fuel with
  | zero => intro l rest h; omega
  | succ f ih =>
    intro l rest h
    cases l with
    | nil => rfl
    | cons c l' =>
      have hlen : l'.length < f := by
        simp only [List.length_cons] at h; omega
      simp only [escList, List.append_assoc]
      by_cases h1 : c = '"'
      · subst h1
        rw [show parseStringBodyF (f + 1) (escChar '"' ++ (escList l' ++ '"' :: rest))
              = (parseStringBodyF f (escList l' ++ '"' :: rest)).map
                  (fun p => ('"' :: p.1, p.2)) from rfl, ih l' rest hlen]
        rfl
      · by_cases h2 : c = '\\'
        · subst h2
          rw [show parseStringBodyF (f + 1) (escChar '\\' ++ (escList l' ++ '"' :: rest))
                = (parseStringBodyF f (escList l' ++ '"' :: rest)).map
                    (fun p => ('\\' :: p.1, p.2)) from rfl, ih l' rest hlen]
          rfl
        · by_cases h3 : c = '\n'
          · subst h3
            rw [show parseStringBodyF (f + 1) (escChar '\n' ++ (escList l' ++ '"' :: rest))
                  = (parseStringBodyF f (escList l' ++ '"' :: rest)).map
                      (fun p => ('\n' :: p.1, p.2)) from rfl, ih l' rest hlen]
            rfl
          · by_cases h4 : c = '\t'
            · subst h4
              rw [show parseStringBodyF (f + 1) (escChar '\t' ++ (escList l' ++ '"' :: rest))
                    = (parseStringBodyF f (escList l' ++ '"' :: rest)).map
                        (fun p => ('\t' :: p.1, p.2)) from rfl, ih l' rest hlen]
              rfl
            · by_cases h5 : c = '\r'
              · subst h5
                rw [show parseStringBodyF (f + 1) (escChar '\r' ++ (escList l' ++ '"' :: rest))
                      = (parseStringBodyF f (escList l' ++ '"' :: rest)).map
                          (fun p => ('\r' :: p.1, p.2)) from rfl, ih l' rest hlen]
                rfl
              · by_cases h6 : c = '\x08'
                · subst h6
                  rw [show parseStringBodyF (f + 1)
                        (escChar '\x08' ++ (escList l' ++ '"' :: rest))
                        = (parseStringBodyF f (escList l' ++ '"' :: rest)).map
                            (fun p => ('\x08' :: p.1, p.2)) from rfl, ih l' rest hlen]
                  rfl
                · by_cases h7 : c = '\x0c'
                  · subst h7
                    rw [show parseStringBodyF (f + 1)
                          (escChar '\x0c' ++ (escList l' ++ '"' :: rest))
                          = (parseStringBodyF f (escList l' ++ '"' :: rest)).map
                              (fun p => ('\x0c' :: p.1, p.2)) from rfl, ih l' rest hlen]
                    rfl
                  · by_cases h8 : c.toNat < 32
                    · have e : escChar c
                          = ['\\', 'u', '0', '0', hexDigitChar (c.toNat / 16),
                             hexDigitChar (c.toNat % 16)] := by
                        simp only [escChar, if_neg h1, if_neg h2, if_neg h3, if_neg h4,
                          if_neg h5, if_neg h6, if_neg h7, if_pos h8]
                      rw [e]
                      rw [show (['\\', 'u', '0', '0', hexDigitChar (c.toNat / 16),
                            hexDigitChar (c.toNat % 16)] : List Char)
                            ++ (escList l' ++ '"' :: rest)
                          = '\\' :: 'u' :: '0' :: '0' :: hexDigitChar (c.toNat / 16)
                            :: hexDigitChar (c.toNat % 16)
                            :: (escList l' ++ '"' :: rest) from rfl]
                      rw [show parseStringBodyF (f + 1)
                            ('\\' :: 'u' :: '0' :: '0' :: hexDigitChar (c.toNat / 16)
                              :: hexDigitChar (c.toNat % 16)
                              :: (escList l' ++ '"' :: rest))
                          = (match hexVal (hexDigitChar (c.toNat / 16)) with
                             | none => none
                             | some hc =>
                               match hexVal (hexDigitChar (c.toNat % 16)) with
                               | none => none
                               | some hd =>
                                 if ((0 * 16 + 0) * 16 + hc) * 16 + hd < 55296 then
                                   (parseStringBodyF f (escList l' ++ '"' :: rest)).map
                                     (fun p =>
                                       (Char.ofNat (((0 * 16 + 0) * 16 + hc) * 16 + hd)
                                         :: p.1, p.2))
                                 else none) from rfl]
                      rw [hexVal_hexDigitChar (c.toNat / 16) (by omega),
                        hexVal_hexDigitChar (c.toNat % 16) (by omega)]
                      show (if ((0 * 16 + 0) * 16 + c.toNat / 16) * 16 + c.toNat % 16
                              < 55296 then
                            (parseStringBodyF f (escList l' ++ '"' :: rest)).map
                              (fun p =>
                                (Char.ofNat (((0 * 16 + 0) * 16 + c.toNat / 16) * 16
                                    + c.toNat % 16) :: p.1, p.2))
                          else none) = some (c :: l', rest)
                      rw [show ((0 * 16 + 0) * 16 + c.toNat / 16) * 16 + c.toNat % 16
                          = c.toNat from by omega]
                      rw [if_pos (show c.toNat < 55296 by omega), ih l' rest hlen,
                        Char.ofNat_toNat]
                      rfl
                    · have e : escChar c = [c] := by
                        simp only [escChar, if_neg h1, if_neg h2, if_neg h3, if_neg h4,
                          if_neg h5, if_neg h6, if_neg h7, if_neg h8]
                      rw [e]
                      rw [show ([c] : List Char) ++ (escList l' ++ '"' :: rest)
                          = c :: (escList l' ++ '"' :: rest) from rfl]
                      simp only [parseStringBodyF, if_neg h1, if_neg h2, if_neg h8]
                      rw [ih l' rest hlen]
                      rfl

theorem parseStringBody_escList (l rest : List Char) :
    parseStringBody (escList l ++ '"' :: rest) = some (l, rest) := by
  have hb : l.length < (escList l ++ '"' :: rest).length := by
    have : l.length ≤ (escList l).length := by
      induction l with
      | nil => simp
      | cons c l' ihl =>
        have hc : 1 ≤ (escChar c).length := by
          simp only [escChar]
          repeat' split
          all_goals simp
        simp only [escList, List.length_cons, List.length_append]
        omega
    simp only [List.length_append, List.length_cons]
    omega
  exact parseStringBodyF_escList _ l rest hb

/-! ### Head characters of serializations -/

theorem isDigit_not_ws (c : Char) (h : c.isDigit = true) : isJsonWs c = false := by
  cases hb : isJsonWs c with
  | false => rfl
  | true =>
    exfalso
    simp only [isJsonWs, Bool.or_eq_true, beq_iff_eq] at hb
    rcases hb with ((rfl | rfl) | rfl) | rfl <;> exact absurd h (by decide)

theorem isDigit_ne (c d : Char) (h : c.isDigit = true) (hd : d.isDigit = false) :
    ¬ c = d := by
  rintro rfl
  rw [h] at hd
  cases hd

theorem serInt_head (i : Int) :
    ∃ c cs, serInt i = c :: cs ∧ (c = '-' ∨ c.isDigit = true) := by
  by_cases hi : i < 0
  · exact ⟨'-', serNat i.natAbs, by simp [serInt, hi], Or.inl rfl⟩
  · obtain ⟨d, ds, he, hall, -, -⟩ := serNat_spec i.toNat
    refine ⟨d, ds, ?_, Or.inr (hall d (by rw [he]; simp))⟩
    rw [serInt, if_neg hi, he]

theorem serV_head (v : JVal) :
    ∃ c cs, serV v = c :: cs ∧ isJsonWs c = false ∧ ¬ c = ']' := by
  cases v with
  | null => exact ⟨'n', _, rfl, rfl, by decide⟩
  | bool b =>
    cases b with
    | false => exact ⟨'f', _, rfl, rfl, by decide⟩
    | true => exact ⟨'t', _, rfl, rfl, by decide⟩
  | num i =>
    obtain ⟨c, cs, he, hc⟩ := serInt_head i
    refine ⟨c, cs, ?_, ?_, ?_⟩
    · rw [show serV (.num i) = serInt i from rfl, he]
    · rcases hc with rfl | h
      · rfl
      · exact isDigit_not_ws c h
    · rcases hc with rfl | h
      · decide
      · exact isDigit_ne c ']' h (by decide)
  | str s => exact ⟨'"', _, rfl, rfl, by decide⟩
  | arr xs => exact ⟨'[', _, rfl, rfl, by decide⟩
  | obj kvs => exact ⟨'{', _, rfl, rfl, by decide⟩

theorem head_not_digit_cons (d : Char) (hd : d.isDigit = false) (Z : List Char) :
    ∀ c, (d :: Z).head? = some c → c.isDigit = false := by
  intro c hc
  simp only [List.head?_cons, Option.some.injEq] at hc
  subst hc
  exact hd

/-! ### One-step dispatch lemmas for the parser -/

theorem parseValue_serInt (f : Nat) (i : Int) (rest : List Char)
    (hrest : ∀ c, rest.head? = some c → c.isDigit = false) :
    parseValue (f + 1) (serInt i ++ rest) = some (.num i, rest) := by
  obtain ⟨c, cs, he, hc⟩ := serInt_head i
  have hws : isJsonWs c = false := by
    rcases hc with rfl | h
    · rfl
    · exact isDigit_not_ws c h
  have h1 : ¬ c = '{' := by
    rcases hc with rfl | h
    · decide
    · exact isDigit_ne c '{' h (by decide)
  have h2 : ¬ c = '[' := by
    rcases hc with rfl | h
    · decide
    · exact isDigit_ne c '[' h (by decide)
  have h3 : ¬ c = '"' := by
    rcases hc with rfl | h
    · decide
    · exact isDigit_ne c '"' h (by decide)
  have h4 : ¬ c = 'n' := by
    rcases hc with rfl | h
    · decide
    · exact isDigit_ne c 'n' h (by decide)
  have h5 : ¬ c = 't' := by
    rcases hc with rfl | h
    · decide
    · exact isDigit_ne c 't' h (by decide)
  have h6 : ¬ c = 'f' := by
    rcases hc with rfl | h
    · decide
    · exact isDigit_ne c 'f' h (by decide)
  rw [he, List.cons_append]
  simp only [parseValue]
  rw [skipWs_cons c (cs ++ rest) hws]
  split
  · next heq => exact absurd heq (by simp)
  · next c' rest' heq =>
    injection heq with e1 e2
    subst e1
    subst e2
    rw [if_neg h1, if_neg h2, if_neg h3, if_neg h4, if_neg h5, if_neg h6]
    rw [show c :: (cs ++ rest) = serInt i ++ rest from by rw [he]; rfl]
    rw [parseNumber_serInt i rest hrest]
    rfl

theorem parseValue_lbracket (f : Nat) (c : Char) (t : List Char)
    (hws : isJsonWs c = false) (hne : ¬ c = ']') :
    parseValue (f + 1) ('[' :: (c :: t))
      = (parseItems f (c :: t)).map (fun p => (JVal.arr p.1, p.2)) := by
  rw [show parseValue (f + 1) ('[' :: (c :: t))
      = (match skipWs (c :: t) with
         | [] => none
         | c2 :: r2 =>
           if c2 = ']' then some (JVal.arr [], r2)
           else (parseItems f (c2 :: r2)).map (fun p => (JVal.arr p.1, p.2))) from rfl]
  rw [skipWs_cons c t hws]
  rw [show (match c :: t with
      | [] => none
      | c2 :: r2 =>
        if c2 = ']' then some (JVal.arr [], r2)
        else (parseItems f (c2 :: r2)).map (fun p => (JVal.arr p.1, p.2)))
      = (if c = ']' then some (JVal.arr [], t)
         else (parseItems f (c :: t)).map (fun p => (JVal.arr p.1, p.2))) from rfl]
  rw [if_neg hne]

theorem parseItems_close (f : Nat) (cs : List Char) (x : JVal) (rest : List Char)
    (h1 : parseValue f cs = some (x, ']' :: rest)) :
    parseItems (f + 1) cs = some ([x], rest) := by
  simp only [parseItems]
  rw [h1]
  rfl

theorem parseItems_comma (f : Nat) (cs Z : List Char) (x : JVal) (vs : List JVal)
    (rest : List Char)
    (h1 : parseValue f cs = some (x, ',' :: Z))
    (h2 : parseItems f Z = some (vs, rest)) :
    parseItems (f + 1) cs = some (x :: vs, rest) := by
  have e1 : parseItems (f + 1) cs
      = (match parseItems f Z with
         | none => none
         | some (vs', r3) => some (x :: vs', r3)) := by
    simp only [parseItems]
    rw [h1]
    rfl
  rw [e1, h2]

theorem parseMembers_key (f : Nat) (k Z : List Char) :
    parseMembers (f + 1) ('"' :: (escList k ++ '"' :: (':' :: Z)))
      = (match parseValue f Z with
         | none => none
         | some (v0, r3) =>
           match skipWs r3 with
           | [] => none
           | c3 :: r4 =>
             if c3 = ',' then
               match parseMembers f r4 with
               | none => none
               | some (kvs0, r5) => some ((String.mk k, v0) :: kvs0, r5)
             else if c3 = '}' then some ([(String.mk k, v0)], r4)
             else none) := by
  have e0 : parseMembers (f + 1) ('"' :: (escList k ++ '"' :: (':' :: Z)))
      = (match parseStringBody (escList k ++ '"' :: (':' :: Z)) with
         | none => (none : Option (List (String × JVal) × List Char))
         | some (k0, r1) =>
           match skipWs r1 with
           | [] => none
           | c2 :: r2 =>
             if c2 = ':' then
               match parseValue f r2 with
               | none => none
               | some (v0, r3) =>
                 match skipWs r3 with
                 | [] => none
                 | c3 :: r4 =>
                   if c3 = ',' then
                     match parseMembers f r4 with
                     | none => none
                     | some (kvs0, r5) => some ((String.mk k0, v0) :: kvs0, r5)
                   else if c3 = '}' then some ([(String.mk k0, v0)], r4)
                   else none
             else none) := by
    simp only [parseMembers]
    rw [skipWs_cons '"' (escList k ++ '"' :: (':' :: Z)) rfl]
    rfl
  rw [e0, parseStringBody_escList]
  rfl

theorem parseMembers_one (f : Nat) (k Z : List Char) (v : JVal) (rest : List Char)
    (h1 : parseValue f Z = some (v, '}' :: rest)) :
    parseMembers (f + 1) ('"' :: (escList k ++ '"' :: (':' :: Z)))
      = some ([(String.mk k, v)], rest) := by
  rw [parseMembers_key, h1]
  rfl

theorem parseMembers_more (f : Nat) (k Z W : List Char) (v : JVal)
    (kvs : List (String × JVal)) (rest : List Char)
    (h1 : parseValue f Z = some (v, ',' :: W))
    (h2 : parseMembers f W = some (kvs, rest)) :
    parseMembers (f + 1) ('"' :: (escList k ++ '"' :: (':' :: Z)))
      = some ((String.mk k, v) :: kvs, rest) := by
  rw [parseMembers_key]
  have e2 : (match parseValue f Z with
      | none => (none : Option (List (String × JVal) × List Char))
      | some (v0, r3) =>
        match skipWs r3 with
        | [] => none
        | c3 :: r4 =>
          if c3 = ',' then
            match parseMembers f r4 with
            | none => none
            | some (kvs0, r5) => some ((String.mk k, v0) :: kvs0, r5)
          else if c3 = '}' then some ([(String.mk k, v0)], r4)
          else none)
      = (match parseMembers f W with
         | none => none
         | some (kvs0, r5) => some ((String.mk k, v) :: kvs0, r5)) := by
    rw [h1]
    rfl
  rw [e2, h2]

/-! ### The serialization round trip -/

theorem jsizeV_pos (v : JVal) : 1 ≤ jsizeV v := by
  cases v with
  | null => simp [jsizeV]
  | bool b => simp [jsizeV]
  | num i => simp [jsizeV]
  | str s => simp [jsizeV]
  | arr xs =>
    cases xs with
    | nil => simp [jsizeV]
    | cons x xs' => simp only [jsizeV]; omega
  | obj kvs =>
    cases kvs with
    | nil => simp [jsizeV]
    | cons kv kvs' => simp only [jsizeV]; omega

theorem jsizeI_pos (xs : List JVal) (h : xs ≠ []) : 1 ≤ jsizeI xs := by
  cases xs with
  | nil => exact absurd rfl h
  | cons x xs' =>
    cases xs' with
    | nil => simp only [jsizeI]; omega
    | cons y ys => simp only [jsizeI]; omega

theorem jsizeM_pos (kvs : List (String × JVal)) (h : kvs ≠ []) : 1 ≤ jsizeM kvs := by
  cases kvs with
  | nil => exact absurd rfl h
  | cons kv kvs' =>
    obtain ⟨k, v⟩ := kv
    cases kvs' with
    | nil => simp only [jsizeM]; omega
    | cons m ms => simp only [jsizeM]; omega

theorem parse_ser (fuel : Nat) :
    (∀ v rest, jsizeV v ≤ fuel → (∀ c, rest.head? = some c → c.isDigit = false) →
       parseValue fuel (serV v ++ rest) = some (v, rest)) ∧
    (∀ xs rest, xs ≠ [] → jsizeI xs ≤ fuel →
       parseItems fuel (serItems xs ++ ']' :: rest) = some (xs, rest)) ∧
    (∀ kvs rest, kvs ≠ [] → jsizeM kvs ≤ fuel →
       parseMembers fuel (serMembers kvs ++ '}' :: rest) = some (kvs, rest)) := by
  induction fuel with
  | zero =>
    refine ⟨?_, ?_, ?_⟩
    · intro v rest hsz _
      have := jsizeV_pos v
      omega
    · intro xs rest hne hsz
      have := jsizeI_pos xs hne
      omega
    · intro kvs rest hne hsz
      have := jsizeM_pos kvs hne
      omega
  | succ f ih =>
    obtain ⟨ihv, ihi, ihm⟩ := ih
    refine ⟨?_, ?_, ?_⟩
    · intro v rest hsz hrest
      cases v with
      | null => rfl
      | bool b => cases b <;> rfl
      | num i => exact parseValue_serInt f i rest hrest
      | str s =>
        rw [show serV (.str s) ++ rest = '"' :: (escList s.data ++ '"' :: rest) from by
          simp [serV]]
        rw [show parseValue (f + 1) ('"' :: (escList s.data ++ '"' :: rest))
            = (parseStringBody (escList s.data ++ '"' :: rest)).map
                (fun p => (JVal.str (String.mk p.1), p.2)) from rfl]
        rw [parseStringBody_escList]
        rfl
      | arr xs =>
        cases xs with
        | nil => rfl
        | cons x xs' =>
          obtain ⟨c, cs, hse, hws, hne⟩ := serV_head x
          obtain ⟨t, ht⟩ : ∃ t, serItems (x :: xs') = c :: t := by
            cases xs' with
            | nil => exact ⟨cs, by simp [serItems, hse]⟩
            | cons y ys =>
              exact ⟨cs ++ ',' :: serItems (y :: ys), by simp [serItems, hse]⟩
          have hsz' : jsizeI (x :: xs') ≤ f := by
            simp only [jsizeV] at hsz
            omega
          rw [show serV (.arr (x :: xs')) ++ rest
              = '[' :: (serItems (x :: xs') ++ ']' :: rest) from by simp [serV]]
          rw [ht, List.cons_append]
          rw [parseValue_lbracket f c (t ++ ']' :: rest) hws hne]
          rw [show c :: (t ++ ']' :: rest) = serItems (x :: xs') ++ ']' :: rest from by
            rw [ht]; rfl]
          rw [ihi (x :: xs') rest (by simp) hsz']
          rfl
      | obj kvs =>
        cases kvs with
        | nil => rfl
        | cons kv kvs' =>
          obtain ⟨t, ht⟩ : ∃ t, serMembers (kv :: kvs') = '"' :: t := by
            obtain ⟨k, v⟩ := kv
            cases kvs' with
            | nil => exact ⟨escList k.data ++ '"' :: ':' :: serV v, by simp [serMembers]⟩
            | cons m ms =>
              exact ⟨(escList k.data ++ '"' :: ':' :: serV v) ++ ',' :: serMembers (m :: ms),
                by simp [serMembers]⟩
          have hsz' : jsizeM (kv :: kvs') ≤ f := by
            simp only [jsizeV] at hsz
            omega
          rw [show serV (.obj (kv :: kvs')) ++ rest
              = '{' :: (serMembers (kv :: kvs') ++ '}' :: rest) from by simp [serV]]
          rw [ht, List.cons_append]
          rw [show parseValue (f + 1) ('{' :: ('"' :: (t ++ '}' :: rest)))
              = (parseMembers f ('"' :: (t ++ '}' :: rest))).map
                  (fun p => (JVal.obj p.1, p.2)) from rfl]
          rw [show ('"' : Char) :: (t ++ '}' :: rest)
              = serMembers (kv :: kvs') ++ '}' :: rest from by rw [ht]; rfl]
          rw [ihm (kv :: kvs') rest (by simp) hsz']
          rfl
    · intro xs rest hne hsz
      cases xs with
      | nil => exact absurd rfl hne
      | cons x xs' =>
        cases xs' with
        | nil =>
          have hszx : jsizeV x ≤ f := by
            simp only [jsizeI] at hsz
            omega
          have h1 : parseValue f (serV x ++ ']' :: rest) = some (x, ']' :: rest) :=
            ihv x (']' :: rest) hszx (head_not_digit_cons ']' (by decide) rest)
          rw [show serItems [x] ++ ']' :: rest = serV x ++ ']' :: rest from by
            simp [serItems]]
          exact parseItems_close f _ x rest h1
        | cons y ys =>
          have hszx : jsizeV x ≤ f := by
            simp only [jsizeI] at hsz
            omega
          have hszr : jsizeI (y :: ys) ≤ f := by
            simp only [jsizeI] at hsz
            omega
          have h1 : parseValue f (serV x ++ ',' :: (serItems (y :: ys) ++ ']' :: rest))
              = some (x, ',' :: (serItems (y :: ys) ++ ']' :: rest)) :=
            ihv x _ hszx (head_not_digit_cons ',' (by decide) _)
          have h2 : parseItems f (serItems (y :: ys) ++ ']' :: rest)
              = some (y :: ys, rest) :=
            ihi (y :: ys) rest (by simp) hszr
          rw [show serItems (x :: y :: ys) ++ ']' :: rest
              = serV x ++ ',' :: (serItems (y :: ys) ++ ']' :: rest) from by
            simp [serItems]]
          exact parseItems_comma f _ _ x (y :: ys) rest h1 h2
    · intro kvs rest hne hsz
      cases kvs with
      | nil => exact absurd rfl hne
      | cons kv kvs' =>
        obtain ⟨k, v⟩ := kv
        cases kvs' with
        | nil =>
          have hszv : jsizeV v ≤ f := by
            simp only [jsizeM] at hsz
            omega
          have h1 : parseValue f (serV v ++ '}' :: rest) = some (v, '}' :: rest) :=
            ihv v _ hszv (head_not_digit_cons '}' (by decide) _)
          rw [show serMembers [(k, v)] ++ '}' :: rest
              = '"' :: (escList k.data ++ '"' :: (':' :: (serV v ++ '}' :: rest))) from by
            simp [serMembers]]
          have := parseMembers_one f k.data (serV v ++ '}' :: rest) v rest h1
          rw [this]
        | cons m ms =>
          have hszv : jsizeV v ≤ f := by
            simp only [jsizeM] at hsz
            omega
          have hszr : jsizeM (m :: ms) ≤ f := by
            simp only [jsizeM] at hsz
            omega
          have h1 : parseValue f
              (serV v ++ ',' :: (serMembers (m :: ms) ++ '}' :: rest))
              = some (v, ',' :: (serMembers (m :: ms) ++ '}' :: rest)) :=
            ihv v _ hszv (head_not_digit_cons ',' (by decide) _)
          have h2 : parseMembers f (serMembers (m :: ms) ++ '}' :: rest)
              = some (m :: ms, rest) :=
            ihm (m :: ms) rest (by simp) hszr
          rw [show serMembers ((k, v) :: m :: ms) ++ '}' :: rest
              = '"' :: (escList k.data ++ '"'
                  :: (':' :: (serV v ++ ',' :: (serMembers (m :: ms) ++ '}' :: rest))))
              from by simp [serMembers]]
          have := parseMembers_more f k.data
            (serV v ++ ',' :: (serMembers (m :: ms) ++ '}' :: rest))
            (serMembers (m :: ms) ++ '}' :: rest) v (m :: ms) rest h1 h2
          rw [this]

theorem jsize_le_len (fuel : Nat) :
    (∀ v, jsizeV v ≤ fuel → jsizeV v ≤ (serV v).length) ∧
    (∀ xs, xs ≠ [] → jsizeI xs ≤ fuel → jsizeI xs ≤ (serItems xs).length + 1) ∧
    (∀ kvs, kvs ≠ [] → jsizeM kvs ≤ fuel →
      jsizeM kvs ≤ (serMembers kvs).length + 1) := by
  induction fuel with
  | zero =>
    refine ⟨?_, ?_, ?_⟩
    · intro v hsz
      have := jsizeV_pos v
      omega
    · intro xs hne hsz
      have := jsizeI_pos xs hne
      omega
    · intro kvs hne hsz
      have := jsizeM_pos kvs hne
      omega
  | succ f ih =>
    obtain ⟨ihv, ihi, ihm⟩ := ih
    refine ⟨?_, ?_, ?_⟩
    · intro v hsz
      cases v with
      | null => simp [jsizeV, serV]
      | bool b => cases b <;> simp [jsizeV, serV]
      | num i =>
        obtain ⟨c, cs, he, -⟩ := serInt_head i
        simp only [jsizeV]
        rw [show serV (.num i) = serInt i from rfl, he]
        simp
      | str s => simp [jsizeV, serV]
      | arr xs =>
        cases xs with
        | nil => simp [jsizeV, serV, serItems]
        | cons x xs' =>
          have h1 : jsizeI (x :: xs') ≤ f := by
            simp only [jsizeV] at hsz
            omega
          have h2 := ihi (x :: xs') (by simp) h1
          simp only [jsizeV, serV, List.length_cons, List.length_append,
            List.length_singleton]
          omega
      | obj kvs =>
        cases kvs with
        | nil => simp [jsizeV, serV, serMembers]
        | cons kv kvs' =>
          have h1 : jsizeM (kv :: kvs') ≤ f := by
            simp only [jsizeV] at hsz
            omega
          have h2 := ihm (kv :: kvs') (by simp) h1
          simp only [jsizeV, serV, List.length_cons, List.length_append,
            List.length_singleton]
          omega
    · intro xs hne hsz
      cases xs with
      | nil => exact absurd rfl hne
      | cons x xs' =>
        cases xs' with
        | nil =>
          have h1 : jsizeV x ≤ f := by
            simp only [jsizeI] at hsz
            omega
          have h2 := ihv x h1
          simp only [jsizeI, serItems]
          omega
        | cons y ys =>
          have h1 : jsizeV x ≤ f := by
            simp only [jsizeI] at hsz
            omega
          have h1' : jsizeI (y :: ys) ≤ f := by
            simp only [jsizeI] at hsz
            omega
          have h2 := ihv x h1
          have h3 := ihi (y :: ys) (by simp) h1'
          simp only [jsizeI, serItems, List.length_append, List.length_cons]
          omega
    · intro kvs hne hsz
      cases kvs with
      | nil => exact absurd rfl hne
      | cons kv kvs' =>
        obtain ⟨k, v⟩ := kv
        cases kvs' with
        | nil =>
          have h1 : jsizeV v ≤ f := by
            simp only [jsizeM] at hsz
            omega
          have h2 := ihv v h1
          simp only [jsizeM, serMembers, List.length_append, List.length_cons]
          omega
        | cons m ms =>
          have h1 : jsizeV v ≤ f := by
            simp only [jsizeM] at hsz
            omega
          have h1' : jsizeM (m :: ms) ≤ f := by
            simp only [jsizeM] at hsz
            omega
          have h2 := ihv v h1
          have h3 := ihm (m :: ms) (by simp) h1'
          simp only [jsizeM, serMembers, List.length_append, List.length_cons]
          omega

theorem jsonLoadsL_serV (v : JVal) : jsonLoadsL (serV v) = some v := by
  have hb : jsizeV v ≤ (serV v).length + 1 := by
    have := (jsize_le_len (jsizeV v)).1 v le_rfl
    omega
  have hp := (parse_ser ((serV v).length + 1)).1 v [] hb
    (by intro c hc; simp at hc)
  rw [show serV v ++ ([] : List Char) = serV v from by simp] at hp
  simp only [jsonLoadsL]
  rw [hp]
  rfl

theorem jsonLoads_serV (v : JVal) : jsonLoads (String.mk (serV v)) = some v := by
  simp only [jsonLoads]
  exact jsonLoadsL_serV v

/-! ### Stripping and fence lemmas -/

theorem dropWhile_cons_neg (p : Char → Bool) (c : Char) (l : List Char)
    (h : p c = false) : (c :: l).dropWhile p = c :: l := by
  simp [List.dropWhile, h]

theorem rdropWhile_append (p : Char → Bool) (l : List Char) (d : Char)
    (hd : p d = false) (t : List Char) :
    rdropWhile p ((l ++ [d]) ++ t) = (l ++ [d]) ++ rdropWhile p t := by
  simp only [rdropWhile, List.reverse_append, List.reverse_cons, List.reverse_nil,
    List.nil_append, List.append_assoc, List.cons_append]
  rw [List.dropWhile_append]
  split
  · next hemp =>
    rw [dropWhile_cons_neg p d l.reverse hd]
    simp only [List.isEmpty_iff] at hemp
    rw [hemp]
    simp
  · next hemp =>
    simp

theorem stripWhile_eq_self (p : Char → Bool) (c d : Char) (l : List Char)
    (hc : p c = false) (hd : p d = false) :
    stripWhile p (c :: (l ++ [d])) = c :: (l ++ [d]) := by
  simp only [stripWhile]
  rw [dropWhile_cons_neg p c (l ++ [d]) hc]
  rw [show c :: (l ++ [d]) = ((c :: l) ++ [d]) ++ [] from by simp]
  rw [rdropWhile_append p (c :: l) d hd []]
  simp [rdropWhile]

theorem rdropWhile_all_after (p : Char → Bool) (l : List Char) (d : Char)
    (hd : p d = false) (t : List Char) (ht : ∀ c ∈ t, p c = true) :
    rdropWhile p ((l ++ [d]) ++ t) = l ++ [d] := by
  rw [rdropWhile_append p l d hd t]
  have e : rdropWhile p t = [] := by
    simp only [rdropWhile]
    rw [List.dropWhile_eq_nil_iff.mpr ?_]
    · rfl
    · intro c hc
      exact ht c (by simpa using hc)
  rw [e]
  simp

theorem pyStripL_obj_prose (mid prose : List Char) :
    pyStripL ((('{' :: (mid ++ ['}'])) : List Char) ++ prose)
      = ('{' :: (mid ++ ['}'])) ++ rdropWhile isPyWs prose := by
  simp only [pyStripL, stripWhile]
  rw [show (('{' :: (mid ++ ['}'])) : List Char) ++ prose
      = '{' :: ((mid ++ ['}']) ++ prose) from by simp]
  rw [dropWhile_cons_neg isPyWs '{' ((mid ++ ['}']) ++ prose) rfl]
  rw [show ('{' : Char) :: ((mid ++ ['}']) ++ prose)
      = (('{' :: mid) ++ ['}']) ++ prose from by simp]
  rw [rdropWhile_append isPyWs ('{' :: mid) '}' rfl prose]
  simp

theorem stripFence_json_fence (mid : List Char) :
    stripFence ('`' :: '`' :: '`' :: 'j' :: 's' :: 'o' :: 'n' :: '\n'
        :: (('{' :: (mid ++ ['}'])) ++ ['\n', '`', '`', '`']))
      = '{' :: (mid ++ ['}']) := by
  have e1 : pyStripL ('`' :: '`' :: '`' :: 'j' :: 's' :: 'o' :: 'n' :: '\n'
        :: (('{' :: (mid ++ ['}'])) ++ ['\n', '`', '`', '`']))
      = '`' :: '`' :: '`' :: 'j' :: 's' :: 'o' :: 'n' :: '\n'
        :: (('{' :: (mid ++ ['}'])) ++ ['\n', '`', '`', '`']) := by
    rw [show ('`' :: '`' :: '`' :: 'j' :: 's' :: 'o' :: 'n' :: '\n'
        :: (('{' :: (mid ++ ['}'])) ++ ['\n', '`', '`', '`']) : List Char)
        = '`' :: (('`' :: '`' :: 'j' :: 's' :: 'o' :: 'n' :: '\n'
            :: (('{' :: (mid ++ ['}'])) ++ ['\n', '`', '`'])) ++ ['`']) from by simp]
    simp only [pyStripL]
    rw [stripWhile_eq_self isPyWs '`' '`' _ rfl rfl]
  have e2 : stripWhile (fun c => c == '`')
        ('`' :: '`' :: '`' :: 'j' :: 's' :: 'o' :: 'n' :: '\n'
          :: (('{' :: (mid ++ ['}'])) ++ ['\n', '`', '`', '`']))
      = 'j' :: 's' :: 'o' :: 'n' :: '\n' :: (('{' :: (mid ++ ['}'])) ++ ['\n']) := by
    simp only [stripWhile]
    rw [show List.dropWhile (fun c => c == '`')
          ('`' :: '`' :: '`' :: 'j' :: 's' :: 'o' :: 'n' :: '\n'
            :: (('{' :: (mid ++ ['}'])) ++ ['\n', '`', '`', '`']))
        = 'j' :: 's' :: 'o' :: 'n' :: '\n'
            :: (('{' :: (mid ++ ['}'])) ++ ['\n', '`', '`', '`']) from rfl]
    rw [show ('j' :: 's' :: 'o' :: 'n' :: '\n'
          :: (('{' :: (mid ++ ['}'])) ++ ['\n', '`', '`', '`']) : List Char)
        = (('j' :: 's' :: 'o' :: 'n' :: '\n' :: ('{' :: (mid ++ ['}']))) ++ ['\n'])
            ++ ['`', '`', '`'] from by simp]
    rw [rdropWhile_all_after (fun c => c == '`')
      ('j' :: 's' :: 'o' :: 'n' :: '\n' :: ('{' :: (mid ++ ['}']))) '\n' rfl
      ['`', '`', '`'] (by intro c hc; simp at hc; subst hc; rfl)]
    simp
  simp only [stripFence]
  rw [e1]
  rw [if_pos (show (['`', '`', '`'] : List Char).isPrefixOf
      ('`' :: '`' :: '`' :: 'j' :: 's' :: 'o' :: 'n' :: '\n'
        :: (('{' :: (mid ++ ['}'])) ++ ['\n', '`', '`', '`'])) = true from rfl)]
  rw [e2]
  rw [if_pos (show (['j', 's', 'o', 'n'] : List Char).isPrefixOf
      ('j' :: 's' :: 'o' :: 'n' :: '\n' :: (('{' :: (mid ++ ['}'])) ++ ['\n']))
        = true from rfl)]
  rw [show ('j' :: 's' :: 'o' :: 'n' :: '\n'
        :: (('{' :: (mid ++ ['}'])) ++ ['\n']) : List Char).drop 4
      = '\n' :: (('{' :: (mid ++ ['}'])) ++ ['\n']) from rfl]
  simp only [pyStripL, stripWhile]
  rw [show List.dropWhile isPyWs ('\n' :: (('{' :: (mid ++ ['}'])) ++ ['\n']))
      = ('{' :: (mid ++ ['}'])) ++ ['\n'] from rfl]
  rw [show (('{' :: (mid ++ ['}'])) : List Char) ++ ['\n']
      = (('{' :: mid) ++ ['}']) ++ ['\n'] from by simp]
  rw [rdropWhile_all_after isPyWs ('{' :: mid) '}' rfl ['\n'] (by
    intro c hc; simp at hc; subst hc; rfl)]
  simp

/-! ### Brace-depth lemmas -/

theorem minPre_cons (c : Char) (cs : List Char) :
    minPre (c :: cs) = min 0 (netc c + minPre cs) := by
  simp only [minPre]
  split <;> omega

theorem minPre_le_zero (l : List Char) : minPre l ≤ 0 := by
  cases l with
  | nil => simp [minPre]
  | cons c cs => rw [minPre_cons]; omega

theorem net_append (X Y : List Char) : net (X ++ Y) = net X + net Y := by
  induction X with
  | nil => simp [net]
  | cons c X' ih => simp only [List.cons_append, net, List.append_eq, ih]; omega

theorem minPre_append (X Y : List Char) :
    minPre (X ++ Y) = min (minPre X) (net X + minPre Y) := by
  induction X with
  | nil =>
    have := minPre_le_zero Y
    simp only [List.nil_append, minPre, net]
    omega
  | cons c X' ih =>
    simp only [List.cons_append, net]
    rw [minPre_cons, ih, minPre_cons]
    omega

theorem net_minPre_of_all (l : List Char) (h : ∀ c ∈ l, netc c = 0) :
    net l = 0 ∧ minPre l = 0 := by
  induction l with
  | nil => simp [net, minPre]
  | cons c cs ih =>
    have hc : netc c = 0 := h c (by simp)
    have ih' := ih (fun c' hc' => h c' (by simp [hc']))
    rw [minPre_cons]
    simp only [net, hc]
    omega

theorem netc_hexDigitChar (x : Nat) (h : x < 16) : netc (hexDigitChar x) = 0 := by
  interval_cases x <;> rfl

theorem netc_eq_zero (c : Char) (h1 : ¬ c = '{') (h2 : ¬ c = '}') : netc c = 0 := by
  simp [netc, h1, h2]

theorem escChar_netc (c : Char) (h1 : ¬ c = '{') (h2 : ¬ c = '}') :
    ∀ c' ∈ escChar c, netc c' = 0 := by
  intro c' hc'
  simp only [escChar] at hc'
  split at hc'
  · simp at hc'; rcases hc' with rfl | rfl <;> rfl
  · split at hc'
    · simp at hc'; rcases hc' with rfl | rfl <;> rfl
    · split at hc'
      · simp at hc'; rcases hc' with rfl | rfl <;> rfl
      · split at hc'
        · simp at hc'; rcases hc' with rfl | rfl <;> rfl
        · split at hc'
          · simp at hc'; rcases hc' with rfl | rfl <;> rfl
          · split at hc'
            · simp at hc'; rcases hc' with rfl | rfl <;> rfl
            · split at hc'
              · simp at hc'; rcases hc' with rfl | rfl <;> rfl
              · split at hc'
                · next hlt =>
                  simp only [List.mem_cons] at hc'
                  rcases hc' with rfl | rfl | rfl | rfl | rfl | rfl | h'
                  · rfl
                  · rfl
                  · rfl
                  · rfl
                  · exact netc_hexDigitChar _ (by omega)
                  · exact netc_hexDigitChar _ (by omega)
                  · exact absurd h' (List.not_mem_nil c')
                · simp at hc'
                  subst hc'
                  exact netc_eq_zero _ h1 h2

theorem escList_netc (l : List Char) (h : braceFreeStr l = true) :
    ∀ c' ∈ escList l, netc c' = 0 := by
  induction l with
  | nil => simp [escList]
  | cons c cs ih =>
    simp only [braceFreeStr, List.all_cons, Bool.and_eq_true, Bool.not_eq_true',
      beq_eq_false_iff_ne, ne_eq] at h
    intro c' hc'
    simp only [escList, List.mem_append] at hc'
    rcases hc' with hc' | hc'
    · exact escChar_netc c h.1.1 h.1.2 c' hc'
    · exact ih (by simp [braceFreeStr, h.2]) c' hc'

theorem serInt_netc (i : Int) : ∀ c ∈ serInt i, netc c = 0 := by
  intro c hc
  simp only [serInt] at hc
  have digit_netc : ∀ d : Char, d.isDigit = true → netc d = 0 := fun d hd =>
    netc_eq_zero d (isDigit_ne d '{' hd (by decide)) (isDigit_ne d '}' hd (by decide))
  split at hc
  · simp only [List.mem_cons] at hc
    rcases hc with rfl | hc
    · rfl
    · obtain ⟨-, -, -, hall, -, -⟩ := serNat_spec i.natAbs
      exact digit_netc c (hall c hc)
  · obtain ⟨-, -, -, hall, -, -⟩ := serNat_spec i.toNat
    exact digit_netc c (hall c hc)

theorem braceFree_net (fuel : Nat) :
    (∀ v, jsizeV v ≤ fuel → braceFreeV v = true →
       net (serV v) = 0 ∧ minPre (serV v) = 0) ∧
    (∀ xs, jsizeI xs ≤ fuel → braceFreeI xs = true →
       net (serItems xs) = 0 ∧ minPre (serItems xs) = 0) ∧
    (∀ kvs, jsizeM kvs ≤ fuel → braceFreeM kvs = true →
       net (serMembers kvs) = 0 ∧ minPre (serMembers kvs) = 0) := by
  induction fuel with
  | zero =>
    refine ⟨?_, ?_, ?_⟩
    · intro v hsz _
      have := jsizeV_pos v
      omega
    · intro xs hsz _
      cases xs with
      | nil => exact ⟨rfl, rfl⟩
      | cons x xs' =>
        have := jsizeI_pos (x :: xs') (by simp)
        omega
    · intro kvs hsz _
      cases kvs with
      | nil => exact ⟨rfl, rfl⟩
      | cons kv kvs' =>
        have := jsizeM_pos (kv :: kvs') (by simp)
        omega
  | succ f ih =>
    obtain ⟨ihv, ihi, ihm⟩ := ih
    refine ⟨?_, ?_, ?_⟩
    · intro v hsz hbf
      cases v with
      | null => exact ⟨by decide, by decide⟩
      | bool b => cases b <;> exact ⟨by decide, by decide⟩
      | num i =>
        rw [show serV (.num i) = serInt i from rfl]
        exact net_minPre_of_all _ (serInt_netc i)
      | str s =>
        simp only [braceFreeV] at hbf
        have h := net_minPre_of_all (escList s.data) (escList_netc s.data hbf)
        rw [show serV (.str s) = '"' :: (escList s.data ++ ['"']) from rfl]
        constructor
        · simp only [net, net_append]
          rw [h.1]
          decide
        · rw [minPre_cons, minPre_append, h.1, h.2]
          decide
      | arr xs =>
        cases xs with
        | nil => exact ⟨by decide, by decide⟩
        | cons x xs' =>
          simp only [braceFreeV] at hbf
          have hsz' : jsizeI (x :: xs') ≤ f := by
            simp only [jsizeV] at hsz
            omega
          have h := ihi (x :: xs') hsz' hbf
          rw [show serV (.arr (x :: xs')) = '[' :: (serItems (x :: xs') ++ [']'])
            from rfl]
          constructor
          · simp only [net, net_append]
            rw [h.1]
            decide
          · rw [minPre_cons, minPre_append, h.1, h.2]
            decide
      | obj kvs =>
        cases kvs with
        | nil => exact ⟨by decide, by decide⟩
        | cons kv kvs' =>
          simp only [braceFreeV] at hbf
          have hsz' : jsizeM (kv :: kvs') ≤ f := by
            simp only [jsizeV] at hsz
            omega
          have h := ihm (kv :: kvs') hsz' hbf
          rw [show serV (.obj (kv :: kvs')) = '{' :: (serMembers (kv :: kvs') ++ ['}'])
            from rfl]
          constructor
          · simp only [net, net_append]
            rw [h.1]
            decide
          · rw [minPre_cons, minPre_append, h.1, h.2]
            decide
    · intro xs hsz hbf
      cases xs with
      | nil => exact ⟨rfl, rfl⟩
      | cons x xs' =>
        simp only [braceFreeI, Bool.and_eq_true] at hbf
        cases xs' with
        | nil =>
          have hsz' : jsizeV x ≤ f := by
            simp only [jsizeI] at hsz
            omega
          rw [show serItems [x] = serV x from rfl]
          exact ihv x hsz' hbf.1
        | cons y ys =>
          have hszx : jsizeV x ≤ f := by
            simp only [jsizeI] at hsz
            omega
          have hszr : jsizeI (y :: ys) ≤ f := by
            simp only [jsizeI] at hsz
            omega
          have h1 := ihv x hszx hbf.1
          have h2 := ihi (y :: ys) hszr hbf.2
          rw [show serItems (x :: y :: ys) = serV x ++ ',' :: serItems (y :: ys)
            from rfl]
          constructor
          · rw [net_append, h1.1]
            simp only [net]
            rw [h2.1]
            decide
          · rw [minPre_append, h1.1, h1.2, minPre_cons, h2.2]
            decide
    · intro kvs hsz hbf
      cases kvs with
      | nil => exact ⟨rfl, rfl⟩
      | cons kv kvs' =>
        obtain ⟨k, v⟩ := kv
        simp only [braceFreeM, Bool.and_eq_true] at hbf
        have hkey := net_minPre_of_all (escList k.data) (escList_netc k.data hbf.1.1)
        cases kvs' with
        | nil =>
          have hsz' : jsizeV v ≤ f := by
            simp only [jsizeM] at hsz
            omega
          have h1 := ihv v hsz' hbf.1.2
          rw [show serMembers [(k, v)]
              = '"' :: (escList k.data ++ '"' :: ':' :: serV v) from by
            simp [serMembers]]
          constructor
          · simp only [net, net_append]
            rw [hkey.1, h1.1]
            decide
          · rw [minPre_cons, minPre_append, hkey.1, hkey.2, minPre_cons, minPre_cons,
              h1.2]
            decide
        | cons m ms =>
          have hszv : jsizeV v ≤ f := by
            simp only [jsizeM] at hsz
            omega
          have hszr : jsizeM (m :: ms) ≤ f := by
            simp only [jsizeM] at hsz
            omega
          have h1 := ihv v hszv hbf.1.2
          have h2 := ihm (m :: ms) hszr hbf.2
          rw [show serMembers ((k, v) :: m :: ms)
              = ('"' :: (escList k.data ++ '"' :: ':' :: serV v))
                  ++ ',' :: serMembers (m :: ms) from by simp [serMembers]]
          have hfst_net : net ('"' :: (escList k.data ++ '"' :: ':' :: serV v)) = 0 := by
            simp only [net, net_append]
            rw [hkey.1, h1.1]
            decide
          have hfst_min : minPre ('"' :: (escList k.data ++ '"' :: ':' :: serV v))
              = 0 := by
            rw [minPre_cons, minPre_append, hkey.1, hkey.2, minPre_cons, minPre_cons,
              h1.2]
            decide
          constructor
          · rw [net_append, hfst_net]
            simp only [net]
            rw [h2.1]
            decide
          · rw [minPre_append, hfst_net, hfst_min, minPre_cons, h2.2]
            decide

theorem braceLoop_open (Z : List Char) (d : Int) (acc : List Char) :
    braceLoop ('{' :: Z) d acc = braceLoop Z (d + 1) (acc ++ ['{']) := rfl

theorem braceLoop_close (Z : List Char) (d : Int) (acc : List Char) :
    braceLoop ('}' :: Z) d acc
      = if d - 1 = 0 then some (acc ++ ['}'])
        else braceLoop Z (d - 1) (acc ++ ['}']) := rfl

theorem braceLoop_other (c : Char) (h1 : ¬ c = '{') (h2 : ¬ c = '}')
    (Z : List Char) (d : Int) (acc : List Char) :
    braceLoop (c :: Z) d acc = braceLoop Z d (acc ++ [c]) := by
  simp only [braceLoop, if_neg h1, if_neg h2]

theorem braceLoop_no_return (X : List Char) :
    ∀ (rest acc : List Char) (d : Int), 1 ≤ d + minPre X →
      braceLoop (X ++ rest) d acc = braceLoop rest (d + net X) (acc ++ X) := by
  induction X with
  | nil =>
    intro rest acc d h
    simp [net]
  | cons c X' ih =>
    intro rest acc d hd
    rw [minPre_cons] at hd
    have hmp := minPre_le_zero X'
    simp only [List.cons_append]
    by_cases hc : c = '{'
    · subst hc
      rw [show netc '{' = 1 from rfl] at hd
      rw [braceLoop_open,
        show d + net ('{' :: X') = (d + 1) + net X' from by
          simp only [net]
          rw [show netc '{' = 1 from rfl]
          omega,
        show acc ++ '{' :: X' = (acc ++ ['{']) ++ X' from by simp]
      exact ih rest (acc ++ ['{']) (d + 1) (by omega)
    · by_cases hc2 : c = '}'
      · subst hc2
        rw [show netc '}' = -1 from rfl] at hd
        rw [braceLoop_close]
        rw [if_neg (show ¬ (d - 1 = 0) from by omega)]
        rw [show d + net ('}' :: X') = (d - 1) + net X' from by
            simp only [net]
            rw [show netc '}' = -1 from rfl]
            omega,
          show acc ++ '}' :: X' = (acc ++ ['}']) ++ X' from by simp]
        exact ih rest (acc ++ ['}']) (d - 1) (by omega)
      · have hn : netc c = 0 := netc_eq_zero c hc hc2
        rw [hn] at hd
        rw [braceLoop_other c hc hc2,
          show d + net (c :: X') = d + net X' from by
            simp only [net]
            rw [hn]
            omega,
          show acc ++ c :: X' = (acc ++ [c]) ++ X' from by simp]
        exact ih rest (acc ++ [c]) d (by omega)

theorem braceLoop_serObj (kvs : List (String × JVal))
    (hb : braceFreeM kvs = true) (tail : List Char) :
    braceLoop (serV (.obj kvs) ++ tail) 0 [] = some (serV (.obj kvs)) := by
  have h := (braceFree_net (jsizeM kvs)).2.2 kvs le_rfl hb
  rw [show serV (.obj kvs) ++ tail = '{' :: (serMembers kvs ++ ('}' :: tail)) from by
    simp [serV]]
  rw [braceLoop_open]
  rw [braceLoop_no_return (serMembers kvs) ('}' :: tail) ([] ++ ['{']) (0 + 1)
    (by rw [h.2]; omega)]
  rw [braceLoop_close]
  rw [if_pos (show (0 : Int) + 1 + net (serMembers kvs) - 1 = 0 from by
    rw [h.1]; omega)]
  simp [serV]

/-! ### Helper lemmas for the endpoint theorems -/

theorem truncate600_le (s : String) : (truncate600 s).length ≤ 600 := by
  simp only [truncate600]
  split
  · next h =>
    simp only [String.length, List.length_take]
    omega
  · next h => omega

theorem dropWhile_head_false (p : Char → Bool) (l : List Char) :
    ∀ c, (l.dropWhile p).head? = some c → p c = false := by
  induction l with
  | nil => intro c hc; simp at hc
  | cons a as ih =>
    intro c hc
    by_cases ha : p a
    · rw [List.dropWhile_cons_of_pos ha] at hc
      exact ih c hc
    · rw [List.dropWhile_cons_of_neg ha] at hc
      simp only [List.head?_cons, Option.some.injEq] at hc
      subst hc
      simpa using ha

theorem dropWhile_eq_self_of_head (p : Char → Bool) (l : List Char)
    (h : ∀ c, l.head? = some c → p c = false) : l.dropWhile p = l := by
  cases l with
  | nil => rfl
  | cons a as => exact dropWhile_cons_neg p a as (h a rfl)

theorem rdropWhile_prefix (p : Char → Bool) (l : List Char) :
    ∃ t, l = rdropWhile p l ++ t := by
  simp only [rdropWhile]
  obtain ⟨t, ht⟩ := List.dropWhile_suffix (l := l.reverse) (p := p)
  refine ⟨t.reverse, ?_⟩
  have := congrArg List.reverse ht
  simpa [List.reverse_append] using this.symm

theorem stripWhile_idem (p : Char → Bool) (l : List Char) :
    stripWhile p (stripWhile p l) = stripWhile p l := by
  simp only [stripWhile]
  have h1 : List.dropWhile p (rdropWhile p (l.dropWhile p))
      = rdropWhile p (l.dropWhile p) := by
    apply dropWhile_eq_self_of_head
    intro c hc
    obtain ⟨t, ht⟩ := rdropWhile_prefix p (l.dropWhile p)
    apply dropWhile_head_false p l
    rw [ht]
    cases he : rdropWhile p (l.dropWhile p) with
    | nil => rw [he] at hc; simp at hc
    | cons b bs =>
      rw [he] at hc
      simp only [List.head?_cons, Option.some.injEq] at hc
      subst hc
      simp
  rw [h1]
  simp only [rdropWhile]
  rw [dropWhile_eq_self_of_head p _ ?_, List.reverse_reverse]
  intro c hc
  have hc' : ((l.dropWhile p).reverse.dropWhile p).reverse.reverse.head? = some c := by
    simpa using hc
  rw [List.reverse_reverse] at hc'
  exact dropWhile_head_false p (l.dropWhile p).reverse c hc'

theorem pyStrip_idem (s : String) : pyStrip (pyStrip s) = pyStrip s := by
  show String.mk (stripWhile isPyWs (stripWhile isPyWs s.data))
      = String.mk (stripWhile isPyWs s.data)
  rw [stripWhile_idem]

theorem pydanticValidate_prompt (raw : RawGenerateRequest) (req : GenerateRequest)
    (h : pydanticValidate raw = some req) : req.prompt = raw.prompt := by
  simp only [pydanticValidate] at h
  split at h
  · cases h
  · split at h
    · injection h with h'
      rw [← h']
    · split at h
      · injection h with h'
        rw [← h']
      · cases h

theorem generate_graph_eq (env : Env) (auth : Option String)
    (raw : RawGenerateRequest) (resp : HttpResponse) (req : GenerateRequest)
    (hreq : pydanticValidate raw = some req)
    (hauth : _require_server_api_key env auth = none) :
    generate_graph env auth raw resp
      = (if pyStrip req.prompt = "" then Except.error EndpointError.promptRequired
         else if (pyStrip req.prompt).length > MAX_PROMPT_CHARS then
           Except.error EndpointError.promptTooLong
         else (_call_vllm_response resp).mapError EndpointError.upstream) := by
  have e0 : generate_graph env auth raw resp
      = (match _require_server_api_key env auth with
         | some e => (Except.error e : Except EndpointError JVal)
         | none =>
           if pyStrip req.prompt = "" then Except.error EndpointError.promptRequired
           else if (pyStrip req.prompt).length > MAX_PROMPT_CHARS then
             Except.error EndpointError.promptTooLong
           else (_call_vllm_response resp).mapError EndpointError.upstream) := by
    simp only [generate_graph]
    rw [hreq]
  rw [e0, hauth]

/-! ### Claim theorems -/

/-- C2: for every integer `v`, `clamp_max_nodes v` equals the default ceiling 28
when `v ≤ 0`, equals 80 when `v > 80`, and equals `v` itself when `v ∈ [1, 80]`. -/
theorem claim_C2 (v : Int) :
    (v ≤ 0 → clamp_max_nodes v = 28) ∧
    (v > 80 → clamp_max_nodes v = 80) ∧
    (1 ≤ v → v ≤ 80 → clamp_max_nodes v = v) := by
  refine ⟨?_, ?_, ?_⟩
  · intro h
    simp only [clamp_max_nodes, DEFAULT_MAX_NODES, MAX_MAX_NODES]
    split_ifs <;> omega
  · intro h
    simp only [clamp_max_nodes, DEFAULT_MAX_NODES, MAX_MAX_NODES]
    split_ifs <;> omega
  · intro h1 h2
    simp only [clamp_max_nodes, DEFAULT_MAX_NODES, MAX_MAX_NODES]
    split_ifs <;> omega

/-- Witness for C2 at concrete inputs -3, 100 and 50. -/
theorem claim_C2_witness :
    clamp_max_nodes (-3) = 28 ∧ clamp_max_nodes 100 = 80 ∧ clamp_max_nodes 50 = 50 :=
  ⟨(claim_C2 (-3)).1 (by decide), (claim_C2 100).2.1 (by decide),
    (claim_C2 50).2.2 (by decide) (by decide)⟩

/-- C7 counterexample: on HTTP 500 with body "internal error" the detail string
is "vLLM error: internal error", not "remote error: internal error" as the
claim states. -/
theorem claim_C7_counterexample :
    _call_vllm_response ⟨500, "internal error"⟩
      = .error (.remoteError "vLLM error: internal error") ∧
    ("vLLM error: internal error" : String) ≠ "remote error: internal error" :=
  ⟨rfl, by decide⟩

/-- C7 (amended): for every remote response with status ≥ 400, the completion
client fails upstream (502) with detail "vLLM error: " followed by the response
body stripped of whitespace and truncated to 600 characters; the truncated body
never exceeds 600 characters; in particular status 500 with body
"internal error" yields a 502 whose detail contains "internal error". -/
theorem claim_C7 (resp : HttpResponse) (h : resp.status ≥ 400) :
    _call_vllm_response resp
      = .error (.remoteError ("vLLM error: " ++ truncate600 (pyStrip resp.body))) ∧
    (truncate600 (pyStrip resp.body)).length ≤ 600 ∧
    EndpointError.statusCode
      (.upstream (.remoteError ("vLLM error: " ++ truncate600 (pyStrip resp.body))))
      = 502 := by
  refine ⟨?_, truncate600_le _, rfl⟩
  simp only [_call_vllm_response]
  rw [if_pos h]

/-- Witness for C7 at the HTTP 500 / "internal error" scenario. -/
theorem claim_C7_witness :
    _call_vllm_response ⟨500, "internal error"⟩
      = .error (.remoteError ("vLLM error: " ++ truncate600 (pyStrip "internal error")))
    ∧ (truncate600 (pyStrip "internal error")).length ≤ 600
    ∧ EndpointError.statusCode
        (.upstream (.remoteError
          ("vLLM error: " ++ truncate600 (pyStrip "internal error")))) = 502 :=
  claim_C7 ⟨500, "internal error"⟩ (by decide)

/-- C9 counterexample: with `MODEL_SERVER_API_KEY` set to the non-empty string
" " (whitespace only) and no Authorization header, the auth check passes and
the endpoint proceeds to the remote call (502 here), instead of returning 401
as the claim requires for every configured non-empty secret. -/
theorem claim_C9_counterexample :
    _require_server_api_key ⟨" ", none⟩ none = none ∧
    (" " : String) ≠ "" ∧
    generate_graph ⟨" ", none⟩ none ⟨"hi", none, none⟩ ⟨500, "x"⟩
      = .error (.upstream (.remoteError "vLLM error: x")) ∧
    EndpointError.statusCode (.upstream (.remoteError "vLLM error: x")) ≠ 401 :=
  ⟨rfl, by decide, rfl, by decide⟩

/-- C9 (amended): when the whitespace-stripped `MODEL_SERVER_API_KEY` is
non-empty and the Authorization header is not exactly `Bearer <stripped
secret>` (including an absent header), `_require_server_api_key` rejects with
401 and detail "unauthorized"; when the stripped secret is empty no check is
performed. -/
theorem claim_C9 (env : Env) (auth : Option String) :
    (pyStrip env.modelServerApiKey ≠ "" →
      auth ≠ some ("Bearer " ++ pyStrip env.modelServerApiKey) →
      _require_server_api_key env auth = some .unauthorized ∧
      EndpointError.statusCode .unauthorized = 401 ∧
      EndpointError.detail .unauthorized = some "unauthorized") ∧
    (pyStrip env.modelServerApiKey = "" →
      _require_server_api_key env auth = none) := by
  constructor
  · intro h1 h2
    refine ⟨?_, rfl, rfl⟩
    simp only [_require_server_api_key]
    rw [if_neg h1, if_neg h2]
  · intro h1
    simp only [_require_server_api_key]
    rw [if_pos h1]

/-- Witness for C9: secret "secret123" configured, header absent, gives 401. -/
theorem claim_C9_witness :
    _require_server_api_key ⟨"secret123", none⟩ none = some .unauthorized ∧
    EndpointError.statusCode .unauthorized = 401 ∧
    EndpointError.detail .unauthorized = some "unauthorized" :=
  (claim_C9 ⟨"secret123", none⟩ none).1 (by decide) (by decide)

/-- C10: a present-but-empty (falsy) `model` override resolves exactly as an
absent one, falling back to `VLLM_MODEL` or the built-in default, and the
resolved model id is whitespace-stripped. -/
theorem claim_C10 (envModel : Option String) :
    resolveTargetModel (some "") envModel = resolveTargetModel none envModel ∧
    resolveTargetModel none envModel = pyStrip (envModel.getD DEFAULT_VLLM_MODEL) ∧
    (∀ ov, pyStrip (resolveTargetModel ov envModel) = resolveTargetModel ov envModel) := by
  refine ⟨rfl, rfl, ?_⟩
  intro ov
  exact pyStrip_idem _

/-- C6: the graph validator accepts a parsed JSON value iff it is an object
whose `name` is a string and whose `nodes` and `edges` are arrays (regardless
of other keys or nested structure); on success it returns the value unchanged;
on each violation it fails with the corresponding field-specific message. -/
theorem claim_C6 (v : JVal) :
    (validateGraph v = Except.ok v ↔
      ∃ kvs, v = JVal.obj kvs ∧
        (∃ s, jget kvs "name" = some (JVal.str s)) ∧
        (∃ ns, jget kvs "nodes" = some (JVal.arr ns)) ∧
        (∃ es, jget kvs "edges" = some (JVal.arr es))) ∧
    (∀ w, validateGraph v = Except.ok w → w = v) ∧
    (JVal.isObj v = false →
      validateGraph v = Except.error "graph payload is not an object") ∧
    (∀ kvs, v = JVal.obj kvs → (∀ s, jget kvs "name" ≠ some (JVal.str s)) →
      validateGraph v = Except.error "graph payload missing string field: name") ∧
    (∀ kvs, v = JVal.obj kvs → (∃ s, jget kvs "name" = some (JVal.str s)) →
      (∀ ns, jget kvs "nodes" ≠ some (JVal.arr ns)) →
      validateGraph v = Except.error "graph payload missing array field: nodes") ∧
    (∀ kvs, v = JVal.obj kvs → (∃ s, jget kvs "name" = some (JVal.str s)) →
      (∃ ns, jget kvs "nodes" = some (JVal.arr ns)) →
      (∀ es, jget kvs "edges" ≠ some (JVal.arr es)) →
      validateGraph v = Except.error "graph payload missing array field: edges") := by
  cases v with
  | null =>
    refine ⟨⟨fun h => Except.noConfusion h, ?_⟩, fun w h => Except.noConfusion h,
      fun _ => rfl, fun kvs heq => JVal.noConfusion heq,
      fun kvs heq => JVal.noConfusion heq, fun kvs heq => JVal.noConfusion heq⟩
    rintro ⟨kvs, heq, -⟩
    exact JVal.noConfusion heq
  | bool b =>
    refine ⟨⟨fun h => Except.noConfusion h, ?_⟩, fun w h => Except.noConfusion h,
      fun _ => rfl, fun kvs heq => JVal.noConfusion heq,
      fun kvs heq => JVal.noConfusion heq, fun kvs heq => JVal.noConfusion heq⟩
    rintro ⟨kvs, heq, -⟩
    exact JVal.noConfusion heq
  | num n =>
    refine ⟨⟨fun h => Except.noConfusion h, ?_⟩, fun w h => Except.noConfusion h,
      fun _ => rfl, fun kvs heq => JVal.noConfusion heq,
      fun kvs heq => JVal.noConfusion heq, fun kvs heq => JVal.noConfusion heq⟩
    rintro ⟨kvs, heq, -⟩
    exact JVal.noConfusion heq
  | str s =>
    refine ⟨⟨fun h => Except.noConfusion h, ?_⟩, fun w h => Except.noConfusion h,
      fun _ => rfl, fun kvs heq => JVal.noConfusion heq,
      fun kvs heq => JVal.noConfusion heq, fun kvs heq => JVal.noConfusion heq⟩
    rintro ⟨kvs, heq, -⟩
    exact JVal.noConfusion heq
  | arr xs =>
    refine ⟨⟨fun h => Except.noConfusion h, ?_⟩, fun w h => Except.noConfusion h,
      fun _ => rfl, fun kvs heq => JVal.noConfusion heq,
      fun kvs heq => JVal.noConfusion heq, fun kvs heq => JVal.noConfusion heq⟩
    rintro ⟨kvs, heq, -⟩
    exact JVal.noConfusion heq
  | obj kvs =>
    by_cases hn : ∃ s, jget kvs "name" = some (JVal.str s)
    · obtain ⟨s, hs⟩ := hn
      by_cases hd : ∃ ns, jget kvs "nodes" = some (JVal.arr ns)
      · obtain ⟨ns, hns⟩ := hd
        by_cases he : ∃ es, jget kvs "edges" = some (JVal.arr es)
        · obtain ⟨es, hes⟩ := he
          have hv : validateGraph (JVal.obj kvs) = Except.ok (JVal.obj kvs) := by
            simp [validateGraph, hs, hns, hes]
          refine ⟨⟨fun _ => ⟨kvs, rfl, ⟨s, hs⟩, ⟨ns, hns⟩, ⟨es, hes⟩⟩, fun _ => hv⟩,
            ?_, ?_, ?_, ?_, ?_⟩
          · intro w h
            rw [hv] at h
            injection h with h'
            exact h'.symm
          · intro hno
            simp [JVal.isObj] at hno
          · intro kvs' heq hnone
            injection heq with h'
            subst h'
            exact absurd hs (hnone s)
          · intro kvs' heq hname hnodes
            injection heq with h'
            subst h'
            exact absurd hns (hnodes ns)
          · intro kvs' heq hname hnodes hedges
            injection heq with h'
            subst h'
            exact absurd hes (hedges es)
        · have he' : ∀ es, jget kvs "edges" ≠ some (JVal.arr es) := by
            intro es hes
            exact he ⟨es, hes⟩
          have hv : validateGraph (JVal.obj kvs)
              = Except.error "graph payload missing array field: edges" := by
            simp [validateGraph, hs, hns, he']
          refine ⟨⟨?_, ?_⟩, ?_, ?_, ?_, ?_, ?_⟩
          · intro h
            rw [hv] at h
            exact Except.noConfusion h
          · rintro ⟨kvs', heq, -, -, hes⟩
            injection heq with h'
            subst h'
            exact absurd hes he
          · intro w h
            rw [hv] at h
            exact Except.noConfusion h
          · intro hno
            simp [JVal.isObj] at hno
          · intro kvs' heq hnone
            injection heq with h'
            subst h'
            exact absurd hs (hnone s)
          · intro kvs' heq hname hnodes
            injection heq with h'
            subst h'
            exact absurd hns (hnodes ns)
          · intro kvs' heq hname hnodes hedges
            exact heq ▸ hv
      · have hd' : ∀ ns, jget kvs "nodes" ≠ some (JVal.arr ns) := by
          intro ns hns
          exact hd ⟨ns, hns⟩
        have hv : validateGraph (JVal.obj kvs)
            = Except.error "graph payload missing array field: nodes" := by
          simp [validateGraph, hs, hd']
        refine ⟨⟨?_, ?_⟩, ?_, ?_, ?_, ?_, ?_⟩
        · intro h
          rw [hv] at h
          exact Except.noConfusion h
        · rintro ⟨kvs', heq, -, hns, -⟩
          injection heq with h'
          subst h'
          exact absurd hns hd
        · intro w h
          rw [hv] at h
          exact Except.noConfusion h
        · intro hno
          simp [JVal.isObj] at hno
        · intro kvs' heq hnone
          injection heq with h'
          subst h'
          exact absurd hs (hnone s)
        · intro kvs' heq hname hnodes
          exact heq ▸ hv
        · intro kvs' heq hname hnodes hedges
          injection heq with h'
          subst h'
          exact absurd hnodes hd
    · have hn' : ∀ s, jget kvs "name" ≠ some (JVal.str s) := by
        intro s hs
        exact hn ⟨s, hs⟩
      have hv : validateGraph (JVal.obj kvs)
          = Except.error "graph payload missing string field: name" := by
        simp [validateGraph, hn']
      refine ⟨⟨?_, ?_⟩, ?_, ?_, ?_, ?_, ?_⟩
      · intro h
        rw [hv] at h
        exact Except.noConfusion h
      · rintro ⟨kvs', heq, hname, -, -⟩
        injection heq with h'
        subst h'
        exact absurd hname hn
      · intro w h
        rw [hv] at h
        exact Except.noConfusion h
      · intro hno
        simp [JVal.isObj] at hno
      · intro kvs' heq hnone
        exact heq ▸ hv
      · intro kvs' heq hname hnodes
        injection heq with h'
        subst h'
        exact absurd hname hn
      · intro kvs' heq hname hnodes hedges
        injection heq with h'
        subst h'
        exact absurd hname hn

/-- Witness for C6: the good graph is accepted unchanged and the graph missing
`name` is rejected with the field-specific message. -/
theorem claim_C6_witness :
    validateGraph (JVal.obj [("name", JVal.str "g"), ("nodes", JVal.arr []),
        ("edges", JVal.arr [])])
      = Except.ok (JVal.obj [("name", JVal.str "g"), ("nodes", JVal.arr []),
        ("edges", JVal.arr [])]) ∧
    validateGraph (JVal.obj [("nodes", JVal.arr []), ("edges", JVal.arr [])])
      = Except.error "graph payload missing string field: name" :=
  ⟨(claim_C6 _).1.mpr ⟨_, rfl, ⟨"g", rfl⟩, ⟨[], rfl⟩, ⟨[], rfl⟩⟩,
    (claim_C6 _).2.2.2.1 _ rfl (fun s h => Option.noConfusion h)⟩

/-- C1 counterexample: on input "[1,2]" the extractor's fast path returns
"[1,2]", whose parse is a JSON array, not an object. -/
theorem claim_C1_counterexample :
    _extract_json_block "[1,2]" = .ok "[1,2]" ∧
    jsonLoads "[1,2]" = some (JVal.arr [JVal.num 1, JVal.num 2]) ∧
    JVal.isObj (JVal.arr [JVal.num 1, JVal.num 2]) = false :=
  ⟨rfl, rfl, rfl⟩

/-- C1 (amended): whenever the extractor succeeds, the returned string parses
as syntactically valid JSON — but not necessarily as an object: the fast path
returns any directly-parseable JSON value as-is. -/
theorem claim_C1 (text out : String) (h : _extract_json_block text = .ok out) :
    (jsonLoads out).isSome = true := by
  simp only [_extract_json_block] at h
  cases hl : jsonLoadsL (stripFence text.data) with
  | some v =>
    rw [hl] at h
    have h2 : Except.ok (ε := ExtractErr) (String.mk (stripFence text.data))
        = Except.ok out := h
    injection h2 with h3
    rw [← h3]
    rw [show jsonLoads (String.mk (stripFence text.data))
        = jsonLoadsL (stripFence text.data) from rfl, hl]
    rfl
  | none =>
    rw [hl] at h
    cases hb : afterFirstBrace (stripFence text.data) with
    | none =>
      rw [hb] at h
      exact Except.noConfusion h
    | some tail =>
      rw [hb] at h
      have h2 : (match braceLoop tail 0 [] with
          | none => (Except.error ExtractErr.incomplete : Except ExtractErr String)
          | some candidate =>
            match jsonLoadsL candidate with
            | some _ => Except.ok (String.mk candidate)
            | none => Except.error ExtractErr.decodeError) = Except.ok out := h
      cases hc : braceLoop tail 0 [] with
      | none =>
        rw [hc] at h2
        exact Except.noConfusion h2
      | some cand =>
        rw [hc] at h2
        have h3 : (match jsonLoadsL cand with
            | some _ => (Except.ok (String.mk cand) : Except ExtractErr String)
            | none => Except.error ExtractErr.decodeError) = Except.ok out := h2
        cases hj : jsonLoadsL cand with
        | none =>
          rw [hj] at h3
          exact Except.noConfusion h3
        | some w =>
          rw [hj] at h3
          injection h3 with h4
          rw [← h4]
          rw [show jsonLoads (String.mk cand) = jsonLoadsL cand from rfl, hj]
          rfl

/-- Witness for C1 at a concrete successful extraction. -/
theorem claim_C1_witness : (jsonLoads "\x7b\"a\":1\x7d").isSome = true :=
  claim_C1 "\x7b\"a\":1\x7d" "\x7b\"a\":1\x7d" rfl

/-- C5 counterexample: on input "abc" (no brace) the extractor raises the
message "model output does not contain JSON object", not "no JSON object
found"; and when the brace-matched span fails to parse (input
with a brace inside a string literal), the propagated error is the json
decoder's, not "unable to extract complete JSON object". -/
theorem claim_C5_counterexample :
    _extract_json_block "abc" = .error .noObject ∧
    ExtractErr.message .noObject = some "model output does not contain JSON object" ∧
    some "model output does not contain JSON object"
      ≠ some ("no JSON object found" : String) ∧
    _extract_json_block "\x7b\"a\":\"\x7d\"\x7d x" = .error .decodeError ∧
    ExtractErr.message .decodeError ≠ some "unable to extract complete JSON object" :=
  ⟨rfl, rfl, by decide, rfl, by decide⟩

/-- C5 (amended): when the (fence-stripped) text does not parse directly, the
fallback fails with the `ValueError` "model output does not contain JSON
object" when no `\x7b` exists, with "unable to extract complete JSON object"
when the depth never returns to zero, and with the propagated json decode
error (whose message the json library produces) when parsing the matched span
fails. -/
theorem claim_C5 (text : String)
    (hfast : jsonLoadsL (stripFence text.data) = none) :
    (afterFirstBrace (stripFence text.data) = none →
      _extract_json_block text = .error .noObject ∧
      ExtractErr.message .noObject
        = some "model output does not contain JSON object") ∧
    (∀ tail, afterFirstBrace (stripFence text.data) = some tail →
      braceLoop tail 0 [] = none →
      _extract_json_block text = .error .incomplete ∧
      ExtractErr.message .incomplete
        = some "unable to extract complete JSON object") ∧
    (∀ tail cand, afterFirstBrace (stripFence text.data) = some tail →
      braceLoop tail 0 [] = some cand →
      jsonLoadsL cand = none →
      _extract_json_block text = .error .decodeError ∧
      ExtractErr.message .decodeError = none) := by
  refine ⟨?_, ?_, ?_⟩
  · intro hb
    refine ⟨?_, rfl⟩
    simp only [_extract_json_block]
    rw [hfast, hb]
  · intro tail hb hc
    refine ⟨?_, rfl⟩
    simp only [_extract_json_block]
    rw [hfast, hb]
    show (match braceLoop tail 0 [] with
        | none => (Except.error ExtractErr.incomplete : Except ExtractErr String)
        | some candidate =>
          match jsonLoadsL candidate with
          | some _ => Except.ok (String.mk candidate)
          | none => Except.error ExtractErr.decodeError)
      = Except.error ExtractErr.incomplete
    rw [hc]
  · intro tail cand hb hc hj
    refine ⟨?_, rfl⟩
    simp only [_extract_json_block]
    rw [hfast, hb]
    show (match braceLoop tail 0 [] with
        | none => (Except.error ExtractErr.incomplete : Except ExtractErr String)
        | some candidate =>
          match jsonLoadsL candidate with
          | some _ => Except.ok (String.mk candidate)
          | none => Except.error ExtractErr.decodeError)
      = Except.error ExtractErr.decodeError
    rw [hc]
    show (match jsonLoadsL cand with
        | some _ => (Except.ok (String.mk cand) : Except ExtractErr String)
        | none => Except.error ExtractErr.decodeError)
      = Except.error ExtractErr.decodeError
    rw [hj]

/-- Witness for C5 at the no-brace input "abc". -/
theorem claim_C5_witness :
    _extract_json_block "abc" = .error .noObject ∧
    ExtractErr.message .noObject = some "model output does not contain JSON object" :=
  (claim_C5 "abc" rfl).1 rfl

/-- C3: wrapping the serialization of any object in a triple-backtick fence
tagged json and feeding the result to the extractor yields the serialized
object back, and it parses to the original object. -/
theorem claim_C3 (kvs : List (String × JVal)) :
    _extract_json_block ("```json\n" ++ String.mk (serV (JVal.obj kvs)) ++ "\n```")
      = Except.ok (String.mk (serV (JVal.obj kvs))) ∧
    jsonLoads (String.mk (serV (JVal.obj kvs))) = some (JVal.obj kvs) := by
  have hser : serV (JVal.obj kvs) = '{' :: (serMembers kvs ++ ['}']) := by
    simp [serV]
  have hdata : ("```json\n" ++ String.mk (serV (JVal.obj kvs)) ++ "\n```").data
      = '`' :: '`' :: '`' :: 'j' :: 's' :: 'o' :: 'n' :: '\n'
        :: (('{' :: (serMembers kvs ++ ['}'])) ++ ['\n', '`', '`', '`']) := by
    rw [hser]
    rfl
  constructor
  · simp only [_extract_json_block]
    rw [hdata, stripFence_json_fence (serMembers kvs), ← hser, jsonLoadsL_serV]
  · exact jsonLoads_serV (JVal.obj kvs)

/-- C4 counterexample: the text consisting of the complete top-level JSON
object with source \x7b"a":"\x7d"\x7d followed by trailing prose " x" (the
whole text not being valid JSON) makes the fallback's depth count close on
the brace inside the string literal, so extraction fails with a decode error
instead of returning the object span. -/
theorem claim_C4_counterexample :
    String.mk (serV (JVal.obj [("a", JVal.str "\x7d")]) ++ (" x").data)
      = "\x7b\"a\":\"\x7d\"\x7d x" ∧
    jsonLoads "\x7b\"a\":\"\x7d\"\x7d x" = none ∧
    _extract_json_block "\x7b\"a\":\"\x7d\"\x7d x" = Except.error ExtractErr.decodeError :=
  ⟨rfl, rfl, rfl⟩

/-- C4 (amended): for a complete top-level JSON object whose string literals
contain no brace characters, followed by trailing prose such that the whole
text is not directly parseable, the extractor returns exactly the object
span and ignores the prose.  Braces inside string literals can misdirect the
depth count, so the unrestricted claim fails. -/
theorem claim_C4 (kvs : List (String × JVal)) (prose : List Char)
    (hb : braceFreeM kvs = true)
    (hfast : jsonLoadsL (serV (JVal.obj kvs) ++ rdropWhile isPyWs prose) = none) :
    _extract_json_block (String.mk (serV (JVal.obj kvs) ++ prose))
      = Except.ok (String.mk (serV (JVal.obj kvs))) := by
  have hsf : stripFence (serV (JVal.obj kvs) ++ prose)
      = serV (JVal.obj kvs) ++ rdropWhile isPyWs prose := by
    have hser : serV (JVal.obj kvs) ++ prose
        = ('{' :: (serMembers kvs ++ ['}'])) ++ prose := by
      simp [serV]
    simp only [stripFence]
    rw [hser, pyStripL_obj_prose]
    rw [show ('{' :: (serMembers kvs ++ ['}'])) ++ rdropWhile isPyWs prose
        = '{' :: ((serMembers kvs ++ ['}']) ++ rdropWhile isPyWs prose) from by simp]
    rw [if_neg]
    · simp [serV]
    · simp [List.isPrefixOf]
  have haf : afterFirstBrace (serV (JVal.obj kvs) ++ rdropWhile isPyWs prose)
      = some (serV (JVal.obj kvs) ++ rdropWhile isPyWs prose) := by
    rw [show serV (JVal.obj kvs) ++ rdropWhile isPyWs prose
        = '{' :: ((serMembers kvs ++ ['}']) ++ rdropWhile isPyWs prose) from by
      simp [serV]]
    simp [afterFirstBrace]
  have hbl : braceLoop (serV (JVal.obj kvs) ++ rdropWhile isPyWs prose) 0 []
      = some (serV (JVal.obj kvs)) := braceLoop_serObj kvs hb _
  simp only [_extract_json_block]
  rw [hsf, hfast, haf]
  show (match braceLoop (serV (JVal.obj kvs) ++ rdropWhile isPyWs prose) 0 [] with
      | none => (Except.error ExtractErr.incomplete : Except ExtractErr String)
      | some candidate =>
        match jsonLoadsL candidate with
        | some _ => Except.ok (String.mk candidate)
        | none => Except.error ExtractErr.decodeError)
    = Except.ok (String.mk (serV (JVal.obj kvs)))
  rw [hbl]
  show (match jsonLoadsL (serV (JVal.obj kvs)) with
      | some _ => (Except.ok (String.mk (serV (JVal.obj kvs))) : Except ExtractErr String)
      | none => Except.error ExtractErr.decodeError)
    = Except.ok (String.mk (serV (JVal.obj kvs)))
  rw [jsonLoadsL_serV]

/-- Witness for C4: the spec's own example, the object with source
\x7b"a":1\x7d followed by a newline-prefixed prose line. -/
theorem claim_C4_witness :
    _extract_json_block (String.mk (serV (JVal.obj [("a", JVal.num 1)])
        ++ ("\n\nHope that helps!").data))
      = Except.ok (String.mk (serV (JVal.obj [("a", JVal.num 1)]))) :=
  claim_C4 [("a", JVal.num 1)] ("\n\nHope that helps!").data rfl rfl

/-- C8 counterexample: an empty prompt is rejected by FastAPI request
validation (pydantic `min_length=1`) with status 422, not 400 as the spec
states. -/
theorem claim_C8_counterexample :
    generate_graph ⟨"", none⟩ none ⟨"", none, none⟩ ⟨200, "ok"⟩
      = Except.error EndpointError.validationError ∧
    EndpointError.statusCode EndpointError.validationError = 422 ∧
    (422 : Nat) ≠ 400 :=
  ⟨rfl, rfl, by decide⟩

/-- C8 (amended): an empty prompt is rejected with 422 by request validation
before the handler runs; a whitespace-only prompt, or one longer than 4000
characters after trimming, is rejected with 400, and in both cases the
result does not depend on the remote response, i.e. the check happens before
any remote call. -/
theorem claim_C8 (env : Env) (auth : Option String) (raw : RawGenerateRequest)
    (resp resp' : HttpResponse) :
    (raw.prompt = "" →
      generate_graph env auth raw resp = Except.error EndpointError.validationError ∧
      EndpointError.statusCode EndpointError.validationError = 422) ∧
    (∀ req, pydanticValidate raw = some req →
      _require_server_api_key env auth = none →
      pyStrip raw.prompt = "" →
      generate_graph env auth raw resp = Except.error EndpointError.promptRequired ∧
      EndpointError.statusCode EndpointError.promptRequired = 400 ∧
      generate_graph env auth raw resp = generate_graph env auth raw resp') ∧
    (∀ req, pydanticValidate raw = some req →
      _require_server_api_key env auth = none →
      (pyStrip raw.prompt).length > 4000 →
      generate_graph env auth raw resp = Except.error EndpointError.promptTooLong ∧
      EndpointError.statusCode EndpointError.promptTooLong = 400 ∧
      generate_graph env auth raw resp = generate_graph env auth raw resp') := by
  refine ⟨?_, ?_, ?_⟩
  · intro h
    have h0 : pydanticValidate raw = none := by
      simp only [pydanticValidate, h]
      rfl
    exact ⟨by simp only [generate_graph, h0], rfl⟩
  · intro req hreq hauth hps
    have hp := pydanticValidate_prompt raw req hreq
    have he := generate_graph_eq env auth raw resp req hreq hauth
    have he' := generate_graph_eq env auth raw resp' req hreq hauth
    rw [hp] at he he'
    refine ⟨?_, rfl, ?_⟩
    · rw [he, if_pos hps]
    · rw [he, he', if_pos hps, if_pos hps]
  · intro req hreq hauth hlen
    have hlen' : (pyStrip raw.prompt).length > MAX_PROMPT_CHARS := hlen
    have hp := pydanticValidate_prompt raw req hreq
    have he := generate_graph_eq env auth raw resp req hreq hauth
    have he' := generate_graph_eq env auth raw resp' req hreq hauth
    rw [hp] at he he'
    have hne : ¬ (pyStrip raw.prompt = "") := by
      intro hh
      rw [hh] at hlen
      simp at hlen
    refine ⟨?_, rfl, ?_⟩
    · rw [he, if_neg hne, if_pos hlen']
    · rw [he, he', if_neg hne, if_neg hne, if_pos hlen', if_pos hlen']

/-- Witness for C8 at a whitespace-only prompt, with two different remote
responses. -/
theorem claim_C8_witness :
    generate_graph ⟨"", none⟩ none ⟨"   ", none, none⟩ ⟨200, "ok"⟩
      = Except.error EndpointError.promptRequired ∧
    EndpointError.statusCode EndpointError.promptRequired = 400 ∧
    generate_graph ⟨"", none⟩ none ⟨"   ", none, none⟩ ⟨200, "ok"⟩
      = generate_graph ⟨"", none⟩ none ⟨"   ", none, none⟩ ⟨500, "boom"⟩ :=
  (claim_C8 ⟨"", none⟩ none ⟨"   ", none, none⟩ ⟨200, "ok"⟩ ⟨500, "boom"⟩).2.1
    ⟨"   ", DEFAULT_MAX_NODES, none⟩ rfl rfl rfl
